import Mathlib

/-!
Verification of the xcc compiler back-end against its specification.

Each namespace embeds one source file (or one cluster of functions) of the
repository as executable Lean definitions, and the theorems settle the
specification claims about them.
-/

/-- ALIGN macro of the source: round `x` up to a multiple of `align`. -/
def cALIGN (x align : Int) : Int := (x + align - 1) / align * align

namespace CondKind

/-!
Condition kinds of the IR (src/cc/codegen_expr.c).  The enum itself lives in a
header outside the provided sources; the spec lists the kinds in the order
EQ, NE, LT, LE, GE, GT, preceded by the synthetic NONE and ANY, so the codes
are modelled as consecutive naturals in that order.
-/

def COND_NONE : Nat := 0
def COND_ANY : Nat := 1
def COND_EQ : Nat := 2
def COND_NE : Nat := 3
def COND_LT : Nat := 4
def COND_LE : Nat := 5
def COND_GE : Nat := 6
def COND_GT : Nat := 7

/-- swap_cond from src/cc/codegen_expr.c lines 31-36:
reflect the range [COND_LT, COND_GT]. -/
def swap_cond (cond : Nat) : Nat :=
  if COND_LT ≤ cond then COND_GT - (cond - COND_LT) else cond

/-- Semantics of a (signed) condition kind on integers:
`condHolds c a b` means the comparison `a c b` holds. -/
def condHolds (c : Nat) (a b : Int) : Prop :=
  if c = COND_EQ then a = b
  else if c = COND_NE then a ≠ b
  else if c = COND_LT then a < b
  else if c = COND_LE then a ≤ b
  else if c = COND_GE then a ≥ b
  else if c = COND_GT then a > b
  else False

instance (c : Nat) (a b : Int) : Decidable (condHolds c a b) := by
  unfold condHolds
  infer_instance

end CondKind

namespace FE

/-!
Model of parse_error from src/cc/frontend/fe_misc.c lines 27-54.
The diagnostic printing is side-effect only; the state consists of the two
counters, and the result records whether the process exited via exit(1).
-/

inductive ParseErrorLevel where
  | warning
  | nofatal
  | fatal
  deriving DecidableEq, Repr

def MAX_ERROR_COUNT : Nat := 25

structure CompileCounts where
  error_count : Nat
  warning_count : Nat
  deriving DecidableEq, Repr

/-- parse_error: warning increments the warning counter only; other levels
increment the error counter and exit(1) when the level is fatal or the
counter has reached MAX_ERROR_COUNT.  The Bool is true iff exit(1) ran. -/
def parse_error (level : ParseErrorLevel) (s : CompileCounts) : CompileCounts × Bool :=
  if level = .warning then
    ({ s with warning_count := s.warning_count + 1 }, false)
  else
    let s' : CompileCounts := { s with error_count := s.error_count + 1 }
    (s', decide (level = .fatal) || decide (MAX_ERROR_COUNT ≤ s'.error_count))

end FE

/-- C9: swap_cond fixes COND_EQ and COND_NE and exchanges COND_LT with COND_GT
and COND_LE with COND_GE; it is an involution on [COND_EQ, COND_GT], and the
comparison `a c b` holds iff `b (swap_cond c) a` holds. -/
theorem swap_cond_spec (c : Nat) (h1 : CondKind.COND_EQ ≤ c) (h2 : c ≤ CondKind.COND_GT) :
    (CondKind.swap_cond CondKind.COND_EQ = CondKind.COND_EQ ∧
     CondKind.swap_cond CondKind.COND_NE = CondKind.COND_NE ∧
     CondKind.swap_cond CondKind.COND_LT = CondKind.COND_GT ∧
     CondKind.swap_cond CondKind.COND_LE = CondKind.COND_GE ∧
     CondKind.swap_cond CondKind.COND_GE = CondKind.COND_LE ∧
     CondKind.swap_cond CondKind.COND_GT = CondKind.COND_LT) ∧
    CondKind.swap_cond (CondKind.swap_cond c) = c ∧
    ∀ a b : Int, CondKind.condHolds c a b ↔ CondKind.condHolds (CondKind.swap_cond c) b a := by
  refine ⟨by decide, ?_, ?_⟩
  · revert h1 h2
    unfold CondKind.COND_EQ CondKind.COND_GT
    intro h1 h2
    interval_cases c <;> decide
  · revert h1 h2
    unfold CondKind.COND_EQ CondKind.COND_GT
    intro h1 h2
    interval_cases c <;>
      (intro a b;
       simp [CondKind.swap_cond, CondKind.condHolds, CondKind.COND_EQ, CondKind.COND_NE,
         CondKind.COND_LT, CondKind.COND_LE, CondKind.COND_GE, CondKind.COND_GT]) <;>
      omega

/-- Witness for C9 at c = COND_LT. -/
theorem swap_cond_spec_witness :
    CondKind.swap_cond (CondKind.swap_cond CondKind.COND_LT) = CondKind.COND_LT ∧
    (CondKind.condHolds CondKind.COND_LT 1 2 ↔
      CondKind.condHolds (CondKind.swap_cond CondKind.COND_LT) 2 1) := by
  have h := swap_cond_spec CondKind.COND_LT (by decide) (by decide)
  exact ⟨h.2.1, h.2.2 1 2⟩

/-- C8: parse_error with warning level increments only the warning counter and
never exits; with a non-warning level it increments the error counter and
exits exactly when the level is fatal or the counter has reached 25. -/
theorem parse_error_spec (level : FE.ParseErrorLevel) (s : FE.CompileCounts) :
    (level = .warning →
      (FE.parse_error level s).1.warning_count = s.warning_count + 1 ∧
      (FE.parse_error level s).1.error_count = s.error_count ∧
      (FE.parse_error level s).2 = false) ∧
    (level ≠ .warning →
      (FE.parse_error level s).1.error_count = s.error_count + 1 ∧
      (FE.parse_error level s).1.warning_count = s.warning_count ∧
      ((FE.parse_error level s).2 = true ↔
        (level = .fatal ∨ 25 ≤ s.error_count + 1))) := by
  cases level <;>
    simp [FE.parse_error, FE.MAX_ERROR_COUNT]

/-- Witness for C8: a nofatal error at count 23 does not exit, a nofatal error
at count 24 exits (reaching the threshold 25), and a warning never exits. -/
theorem parse_error_spec_witness :
    (FE.parse_error .nofatal ⟨23, 0⟩).2 = false ∧
    (FE.parse_error .nofatal ⟨24, 0⟩).2 = true ∧
    (FE.parse_error .warning ⟨24, 0⟩).2 = false := by
  refine ⟨?_, ?_, ?_⟩
  · have h := (parse_error_spec .nofatal ⟨23, 0⟩).2 (by decide)
    have h2 := h.2.2
    simp only [show ¬((FE.ParseErrorLevel.nofatal = .fatal) ∨ 25 ≤ 23 + 1) by decide,
      iff_false] at h2
    exact Bool.not_eq_true _ ▸ (by simpa using h2)
  · exact ((parse_error_spec .nofatal ⟨24, 0⟩).2 (by decide)).2.2.mpr (by decide)
  · exact ((parse_error_spec .warning ⟨24, 0⟩).1 rfl).2.2

namespace RV

/-!
Model of src/cc/arch/riscv64/ir_riscv64.c: is_im12, the tweak_irs pass and the
callee-save push/pop sequences.  VRegs carry the fields the pass reads; the
IR record keeps the operands as options (NULL pointers in the source).
Condition kinds reuse the numbering of namespace CondKind, with the UNSIGNED
flag as bit 3 (the enum header is not among the provided sources).
-/

def COND_MASK : Nat := 7
def COND_UNSIGNED : Nat := 8

/-- is_im12 from ir_riscv64.c lines 101-103. -/
def is_im12 (x : Int) : Bool :=
  decide (x ≤ (2 ^ 11 - 1 : Int)) && decide (-(2 ^ 11 : Int) ≤ x)

structure VReg where
  id : Nat
  vsize : Nat
  const : Bool
  fixnum : Int
  flonum : Bool
  deriving DecidableEq, Repr

inductive IRKind where
  | bofs | iofs | sofs | load | load_s | store | store_s
  | add | sub | mul | div | mod | bitand | bitor | bitxor | lshift | rshift
  | neg | bitnot | cond | jmp | tjmp | precall | pusharg | call | result
  | subsp | cast | mov | asmx
  deriving DecidableEq, Repr

structure IR where
  kind : IRKind
  dst : Option VReg
  opr1 : Option VReg
  opr2 : Option VReg
  flag : Nat
  condKind : Nat
  jmpCond : Nat
  deriving DecidableEq, Repr

/-- reg_alloc_spawn: a fresh non-constant VReg of the given size. -/
def reg_alloc_spawn (counter : Nat) (vsize : Nat) : Nat × VReg :=
  (counter + 1, { id := counter, vsize := vsize, const := false, fixnum := 0, flonum := false })

/-- reg_alloc_spawn_const: a fresh constant VReg holding `value`. -/
def reg_alloc_spawn_const (counter : Nat) (value : Int) (vsize : Nat) : Nat × VReg :=
  (counter + 1, { id := counter, vsize := vsize, const := true, fixnum := value, flonum := false })

/-- insert_const_mov from ir_riscv64.c lines 953-959: spawn a fresh VReg of the
constant's size and build a MOV of the constant into it; the caller replaces
the operand with the fresh VReg. -/
def insert_const_mov (counter : Nat) (c : VReg) (flag : Nat) : Nat × IR × VReg :=
  let (counter', tmp) := reg_alloc_spawn counter c.vsize
  (counter',
   { kind := .mov, dst := some tmp, opr1 := some c, opr2 := none,
     flag := flag, condKind := 0, jmpCond := 0 },
   tmp)

/-- One step of tweak_irs (ir_riscv64.c lines 963-1114): the MOVs inserted
before the instruction, followed by the (possibly rewritten) instruction. -/
def tweakOne (counter : Nat) (ir : IR) : Nat × List IR :=
  match ir.kind with
  | .load =>
    match ir.opr1 with
    | some o1 =>
      if o1.const then
        let (c', mov, tmp) := insert_const_mov counter o1 ir.flag
        (c', [mov, { ir with opr1 := some tmp }])
      else (counter, [ir])
    | none => (counter, [ir])
  | .store =>
    match ir.opr2 with
    | some o2 =>
      if o2.const then
        let (c', mov, tmp) := insert_const_mov counter o2 ir.flag
        (c', [mov, { ir with opr2 := some tmp }])
      else (counter, [ir])
    | none => (counter, [ir])
  | .add =>
    match ir.opr1, ir.opr2 with
    | some o1, some o2 =>
      let (p1, p2) := if o1.const then (o2, o1) else (o1, o2)
      if p2.const ∧ (p2.fixnum > 0x0fff ∨ p2.fixnum < -0x0fff) then
        let (c', mov, tmp) := insert_const_mov counter p2 ir.flag
        (c', [mov, { ir with opr1 := some p1, opr2 := some tmp }])
      else (counter, [{ ir with opr1 := some p1, opr2 := some p2 }])
    | _, _ => (counter, [ir])
  | .sub =>
    match ir.opr1, ir.opr2 with
    | some o1, some o2 =>
      if o1.const then
        if o1.fixnum = 0 then
          (counter, [{ ir with kind := .neg, opr1 := some o2, opr2 := none }])
        else
          let (c', mov, tmp) := insert_const_mov counter o1 ir.flag
          if o2.const ∧ (o2.fixnum > 0x0fff ∨ o2.fixnum < -0x0fff) then
            let (c'', mov2, tmp2) := insert_const_mov c' o2 ir.flag
            (c'', [mov, mov2, { ir with opr1 := some tmp, opr2 := some tmp2 }])
          else (c', [mov, { ir with opr1 := some tmp }])
      else
        if o2.const ∧ (o2.fixnum > 0x0fff ∨ o2.fixnum < -0x0fff) then
          let (c', mov, tmp) := insert_const_mov counter o2 ir.flag
          (c', [mov, { ir with opr2 := some tmp }])
        else (counter, [ir])
    | _, _ => (counter, [ir])
  | .mul | .div | .mod =>
    match ir.opr1, ir.opr2 with
    | some o1, some o2 =>
      let (c1, pre1, ir1) :=
        if o1.const then
          let (c', mov, tmp) := insert_const_mov counter o1 ir.flag
          (c', [mov], { ir with opr1 := some tmp })
        else (counter, ([] : List IR), ir)
      if o2.const then
        let (c2, mov2, tmp2) := insert_const_mov c1 o2 ir.flag
        (c2, pre1 ++ [mov2, { ir1 with opr2 := some tmp2 }])
      else (c1, pre1 ++ [ir1])
    | _, _ => (counter, [ir])
  | .bitand | .bitor | .bitxor =>
    match ir.opr1, ir.opr2 with
    | some o1, some o2 =>
      let (c1, pre1, ir1) :=
        if o1.const then
          let (c', mov, tmp) := insert_const_mov counter o1 ir.flag
          (c', [mov], { ir with opr1 := some tmp })
        else (counter, ([] : List IR), ir)
      if o2.const ∧ ¬ is_im12 o2.fixnum then
        let (c2, mov2, tmp2) := insert_const_mov c1 o2 ir.flag
        (c2, pre1 ++ [mov2, { ir1 with opr2 := some tmp2 }])
      else (c1, pre1 ++ [ir1])
    | _, _ => (counter, [ir])
  | .lshift | .rshift =>
    match ir.opr1 with
    | some o1 =>
      if o1.const then
        let (c', mov, tmp) := insert_const_mov counter o1 ir.flag
        (c', [mov, { ir with opr1 := some tmp }])
      else (counter, [ir])
    | none => (counter, [ir])
  | .cond =>
    match ir.opr1, ir.opr2 with
    | some _, some o2 =>
      let c := ir.condKind &&& COND_MASK
      if c = CondKind.COND_EQ ∨ c = CondKind.COND_NE then
        if ¬ o2.const ∨ o2.fixnum ≠ 0 then
          match ir.dst with
          | some d =>
            let sub : IR :=
              { kind := .sub, dst := ir.dst, opr1 := ir.opr1, opr2 := ir.opr2,
                flag := ir.flag, condKind := 0, jmpCond := 0 }
            let (c', zero) := reg_alloc_spawn_const counter 0 d.vsize
            (c', [sub, { ir with opr1 := some d, opr2 := some zero }])
          | none => (counter, [ir])
        else (counter, [ir])
      else if c = CondKind.COND_LE ∨ c = CondKind.COND_GT then
        if o2.const then
          let (c', mov, tmp) := insert_const_mov counter o2 ir.flag
          (c', [mov, { ir with opr2 := some tmp }])
        else (counter, [ir])
      else if c = CondKind.COND_LT ∨ c = CondKind.COND_GE then
        if o2.const ∧ (o2.fixnum < -4096 ∨ o2.fixnum > 4096) then
          let (c', mov, tmp) := insert_const_mov counter o2 ir.flag
          (c', [mov, { ir with opr2 := some tmp }])
        else (counter, [ir])
      else (counter, [ir])
    | _, _ => (counter, [ir])
  | .jmp =>
    match ir.opr1 with
    | some o1 =>
      if o1.flonum then
        let c1 := ir.jmpCond
        let (c1, c2) :=
          if c1 = CondKind.COND_NE then (CondKind.COND_EQ, CondKind.COND_EQ)
          else (c1, CondKind.COND_NE)
        let (cnt, tmp) := reg_alloc_spawn counter 2
        let condIr : IR :=
          { kind := .cond, dst := some tmp, opr1 := ir.opr1, opr2 := ir.opr2,
            flag := 0, condKind := c1, jmpCond := 0 }
        let (cnt', zero) := reg_alloc_spawn_const cnt 0 2
        (cnt', [condIr, { ir with jmpCond := c2, opr1 := some tmp, opr2 := some zero }])
      else
        match ir.opr2 with
        | some o2 =>
          if o2.const ∧ o2.fixnum ≠ 0 then
            let (c', mov, tmp) := insert_const_mov counter o2 ir.flag
            (c', [mov, { ir with opr2 := some tmp }])
          else (counter, [ir])
        | none => (counter, [ir])
    | none =>
      match ir.opr2 with
      | some o2 =>
        if o2.const ∧ o2.fixnum ≠ 0 then
          let (c', mov, tmp) := insert_const_mov counter o2 ir.flag
          (c', [mov, { ir with opr2 := some tmp }])
        else (counter, [ir])
      | none => (counter, [ir])
  | .tjmp =>
    match ir.opr1 with
    | some o1 =>
      let (c', mov, tmp) := insert_const_mov counter o1 ir.flag
      (c', [mov, { ir with opr1 := some tmp }])
    | none => (counter, [ir])
  | .pusharg =>
    match ir.opr1 with
    | some o1 =>
      if o1.const then
        let (c', mov, tmp) := insert_const_mov counter o1 ir.flag
        (c', [mov, { ir with opr1 := some tmp }])
      else (counter, [ir])
    | none => (counter, [ir])
  | _ => (counter, [ir])

/-- tweak_irs over one basic block's instruction list; returns the fresh-VReg
counter and the rewritten list (insertions happen before the instruction that
triggered them, exactly as vec_insert at index j does in the source). -/
def tweak_irs (counter : Nat) (irs : List IR) : Nat × List IR :=
  match irs with
  | [] => (counter, [])
  | ir :: rest =>
    let (c', out) := tweakOne counter ir
    let (c'', outRest) := tweak_irs c' rest
    (c'', out ++ outRest)

/-- Helper to build a binary-operation IR. -/
def mkBop (k : IRKind) (dst o1 o2 : VReg) (flag : Nat) : IR :=
  { kind := k, dst := some dst, opr1 := some o1, opr2 := some o2,
    flag := flag, condKind := 0, jmpCond := 0 }

end RV

namespace RV

def POINTER_SIZE : Nat := 8

def kCalleeSaveRegs : List Nat := [8, 9, 10, 11, 12, 13, 14, 15, 16, 17, 18]
def kCalleeSaveFRegs : List Nat := [8, 9, 10, 11, 12, 13, 14, 15, 17, 18, 19]

/-- ALIGN(n, 2) of the source. -/
def align2 (n : Nat) : Nat := (n + 1) / 2 * 2

/-- enum_callee_save_regs (ir_riscv64.c lines 801-810): select the registers
whose bit is set in the mask, in table order. -/
def enum_callee_save_regs (bit : Nat) (indices : List Nat) : List Nat :=
  indices.filter (fun ireg => bit &&& (1 <<< ireg) != 0)

/-- push_callee_save_regs (ir_riscv64.c lines 814-830).  Result: the number of
16-byte-aligned slots SP moves down by, and the (register, SP offset) pairs of
the stores; a register is (isFloat, table index). -/
def push_callee_save_regs (used fused : Nat) : Nat × List ((Bool × Nat) × Nat) :=
  let saves := (enum_callee_save_regs used kCalleeSaveRegs).map (fun i => (false, i))
  let fsaves := (enum_callee_save_regs fused kCalleeSaveFRegs).map (fun i => (true, i))
  let count := saves.length
  let fcount := fsaves.length
  let total := count + fcount
  let total_aligned := align2 total
  (total_aligned,
    saves.enum.map (fun p => (p.2, (total - 1 - p.1) * POINTER_SIZE)) ++
    fsaves.enum.map (fun p => (p.2, (total - 1 - count - p.1) * POINTER_SIZE)))

/-- pop_callee_save_regs (ir_riscv64.c lines 832-848).  Result: the number of
slots SP moves back up by, and the (register, SP offset) pairs of the loads,
in emission order (the loops run backwards). -/
def pop_callee_save_regs (used fused : Nat) : Nat × List ((Bool × Nat) × Nat) :=
  let saves := (enum_callee_save_regs used kCalleeSaveRegs).map (fun i => (false, i))
  let fsaves := (enum_callee_save_regs fused kCalleeSaveFRegs).map (fun i => (true, i))
  let count := saves.length
  let fcount := fsaves.length
  let total := count + fcount
  if total = 0 then (0, [])
  else
    (align2 total,
      (fsaves.enum.map (fun p => (p.2, (total - 1 - count - p.1) * POINTER_SIZE))).reverse ++
      (saves.enum.map (fun p => (p.2, (count - 1 - p.1) * POINTER_SIZE))).reverse)

end RV

/-- C1: with used register masks selecting callee-save S2 (bit 8) and FS0
(bit 8), the prologue stores S2 at SP offset 8 and FS0 at offset 0, but the
epilogue loads S2 back from offset 0 (the float register's slot), not from
offset 8 where it was stored.  SP itself is readjusted by the matching two
aligned slots.  This evaluates the code at the failing input of claim C2. -/
theorem rv_pop_callee_save_offset_mismatch :
    RV.push_callee_save_regs (1 <<< 8) (1 <<< 8) = (2, [((false, 8), 8), ((true, 8), 0)]) ∧
    RV.pop_callee_save_regs (1 <<< 8) (1 <<< 8) = (2, [((true, 8), 0), ((false, 8), 0)]) := by
  decide

/-- C1 failing input: an IR_ADD whose second operand is the constant 2048.
tweak_irs leaves the instruction untouched (its threshold is ±0x0fff), yet
is_im12 2048 is false, so the emitted addi immediate is out of range. -/
theorem rv_tweak_add_keeps_wide_immediate :
    RV.tweak_irs 3 [RV.mkBop .add ⟨2, 3, false, 0, false⟩ ⟨0, 3, false, 0, false⟩
        ⟨1, 3, true, 2048, false⟩ 0]
      = (3, [RV.mkBop .add ⟨2, 3, false, 0, false⟩ ⟨0, 3, false, 0, false⟩
        ⟨1, 3, true, 2048, false⟩ 0]) ∧
    RV.is_im12 2048 = false := by
  decide

/-- C3 counterexample: an IR_MUL whose first operand is the constant 5 and
whose second operand is not constant.  tweak_irs does not swap the operands
(the output is not the swapped instruction); it inserts a MOV of the constant
into the fresh VReg 3 and the multiply keeps its original second operand. -/
theorem rv_tweak_mul_const_not_swapped :
    (RV.tweak_irs 3 [RV.mkBop .mul ⟨2, 3, false, 0, false⟩ ⟨0, 3, true, 5, false⟩
        ⟨1, 3, false, 0, false⟩ 0]).2
      ≠ [RV.mkBop .mul ⟨2, 3, false, 0, false⟩ ⟨1, 3, false, 0, false⟩
        ⟨0, 3, true, 5, false⟩ 0] ∧
    RV.tweak_irs 3 [RV.mkBop .mul ⟨2, 3, false, 0, false⟩ ⟨0, 3, true, 5, false⟩
        ⟨1, 3, false, 0, false⟩ 0]
      = (4, [{ kind := .mov, dst := some ⟨3, 3, false, 0, false⟩,
               opr1 := some ⟨0, 3, true, 5, false⟩, opr2 := none,
               flag := 0, condKind := 0, jmpCond := 0 },
             RV.mkBop .mul ⟨2, 3, false, 0, false⟩ ⟨3, 3, false, 0, false⟩
               ⟨1, 3, false, 0, false⟩ 0]) := by
  constructor
  · decide
  · decide

/-- C3 amended: among the commutative binary opcodes, only IR_ADD swaps a
constant first operand to second position (shown here when the constant also
fits the pass's ±0x0fff immediate window, so no further MOV is inserted); for
IR_MUL, IR_BITAND, IR_BITOR and IR_BITXOR the pass instead inserts a MOV of
the constant into a fresh VReg placed immediately before the instruction and
replaces the first operand by that fresh VReg. -/
theorem rv_tweak_commutative_const_behavior (counter : Nat) (d o1 o2 : RV.VReg) (flag : Nat)
    (h1 : o1.const = true) (h2 : o2.const = false)
    (h3 : o1.fixnum ≤ 0x0fff) (h4 : -0x0fff ≤ o1.fixnum) :
    RV.tweak_irs counter [RV.mkBop .add d o1 o2 flag]
      = (counter, [RV.mkBop .add d o2 o1 flag]) ∧
    ∀ k : RV.IRKind, (k = .mul ∨ k = .bitand ∨ k = .bitor ∨ k = .bitxor) →
      RV.tweak_irs counter [RV.mkBop k d o1 o2 flag]
        = (counter + 1,
           [{ kind := .mov, dst := some (RV.reg_alloc_spawn counter o1.vsize).2,
              opr1 := some o1, opr2 := none, flag := flag, condKind := 0, jmpCond := 0 },
            RV.mkBop k d (RV.reg_alloc_spawn counter o1.vsize).2 o2 flag]) := by
  constructor
  · have hfix : ¬ ((o1.fixnum > 0x0fff) ∨ (o1.fixnum < -0x0fff)) := by omega
    simp [RV.tweak_irs, RV.tweakOne, RV.mkBop, h1, h2, hfix]
  · rintro k (rfl | rfl | rfl | rfl) <;>
      simp [RV.tweak_irs, RV.tweakOne, RV.mkBop, RV.insert_const_mov,
        RV.reg_alloc_spawn, h1, h2]

/-- Witness for the C3 amended theorem at concrete inputs. -/
theorem rv_tweak_commutative_const_behavior_witness :
    RV.tweak_irs 3 [RV.mkBop .add ⟨2, 3, false, 0, false⟩ ⟨0, 3, true, 5, false⟩
        ⟨1, 3, false, 0, false⟩ 0]
      = (3, [RV.mkBop .add ⟨2, 3, false, 0, false⟩ ⟨1, 3, false, 0, false⟩
        ⟨0, 3, true, 5, false⟩ 0]) ∧
    RV.tweak_irs 3 [RV.mkBop .bitand ⟨2, 3, false, 0, false⟩ ⟨0, 3, true, 5, false⟩
        ⟨1, 3, false, 0, false⟩ 0]
      = (4, [{ kind := .mov, dst := some (RV.reg_alloc_spawn 3 3).2,
               opr1 := some ⟨0, 3, true, 5, false⟩, opr2 := none,
               flag := 0, condKind := 0, jmpCond := 0 },
             RV.mkBop .bitand ⟨2, 3, false, 0, false⟩ (RV.reg_alloc_spawn 3 3).2
               ⟨1, 3, false, 0, false⟩ 0]) := by
  have h := rv_tweak_commutative_const_behavior 3 ⟨2, 3, false, 0, false⟩
    ⟨0, 3, true, 5, false⟩ ⟨1, 3, false, 0, false⟩ 0 rfl rfl (by decide) (by decide)
  exact ⟨h.1, h.2 .bitand (Or.inr (Or.inl rfl))⟩

namespace CondKind

/-- Unsigned condition kinds, following the signed block (the offset
COND_ULT - COND_LT is added by gen_compare_expr). -/
def COND_ULT : Nat := 8
def COND_ULE : Nat := 9
def COND_UGE : Nat := 10
def COND_UGT : Nat := 11

end CondKind

namespace CE

/-!
Model of gen_compare_expr and gen_cast from src/cc/codegen_expr.c.
Fixnum kind sizes are the native 64-bit ones (long = pointer = 8 bytes).
Expression-kind codes EX_EQ..EX_GT are consecutive, mirroring the condition
kinds (the ast.h enum is outside the provided sources).
-/

inductive FixnumKind where
  | fxChar | fxShort | fxInt | fxLong | fxLLong | fxEnum
  deriving DecidableEq, Repr

inductive CType where
  | fixnum (kind : FixnumKind) (isUnsigned : Bool)
  | ptr
  deriving DecidableEq, Repr

def fixnum_kind_size : FixnumKind → Nat
  | .fxChar => 1
  | .fxShort => 2
  | .fxInt => 4
  | .fxLong => 8
  | .fxLLong => 8
  | .fxEnum => 4

def type_size : CType → Nat
  | .fixnum k _ => fixnum_kind_size k
  | .ptr => 8

/-- is_unsigned computed by to_vtype: fixnum types use their flag, everything
else counts as unsigned. -/
def typeUnsigned : CType → Bool
  | .fixnum _ u => u
  | .ptr => true

def is_fixnum : CType → Bool
  | .fixnum _ _ => true
  | .ptr => false

/-- lhs->type->fixnum.kind != FX_LONG test of gen_compare_expr; a pointer
type is never FX_LONG. -/
def tyIsLong : CType → Bool
  | .fixnum .fxLong _ => true
  | _ => false

/-- Modelled from the spec: is_im32 (declared outside the provided sources)
holds when the literal fits 32 bits signed. -/
def is_im32 (x : Int) : Bool :=
  decide (-(2 ^ 31 : Int) ≤ x) && decide (x ≤ (2 ^ 31 - 1 : Int))

def EX_EQ : Nat := 0
def EX_NE : Nat := 1
def EX_LT : Nat := 2
def EX_LE : Nat := 3
def EX_GE : Nat := 4
def EX_GT : Nat := 5

/-- A comparison operand: a fixnum literal or any non-literal expression of a
known type. -/
inductive CmpExpr where
  | fixnum (v : Int) (ty : CType)
  | nonlit (ty : CType)
  deriving DecidableEq, Repr

def CmpExpr.ty : CmpExpr → CType
  | .fixnum _ t => t
  | .nonlit t => t

/-- What gen_compare_expr emits after evaluating the left value. -/
inductive CmpEmit where
  | test
  | cmpConst (v : Int)
  | movCmp
  deriving DecidableEq, Repr

/-- Condition adjustment of gen_compare_expr lines 51-54: comparisons other
than EQ/NE on non-fixnum or unsigned left types become unsigned kinds. -/
def adjust_unsigned (cond : Nat) (lhs : CmpExpr) : Nat :=
  if cond > CondKind.COND_NE ∧ (¬ is_fixnum lhs.ty ∨ typeUnsigned lhs.ty) then
    cond + (CondKind.COND_ULT - CondKind.COND_LT)
  else cond

/-- Core of gen_compare_expr (codegen_expr.c lines 51-77), after the operand
swap has been applied: the unsigned adjustment of the condition and the choice
of emitted comparison form. -/
def gen_compare_core (cond0 : Nat) (lhs rhs : CmpExpr) : Nat × CmpEmit :=
  let cond := adjust_unsigned cond0 lhs
  match rhs with
  | .fixnum v _ =>
    if v = 0 ∧ (cond = CondKind.COND_EQ ∨ cond = CondKind.COND_NE) then
      (cond, .test)
    else if ¬ tyIsLong lhs.ty ∨ is_im32 v then
      (cond, .cmpConst v)
    else
      (cond, .movCmp)
  | .nonlit _ => (cond, .movCmp)

/-- gen_compare_expr (codegen_expr.c lines 38-78): swap a literal left operand
with a non-literal right operand, mirroring the condition, then run the core. -/
def gen_compare_expr (kind : Nat) (lhs rhs : CmpExpr) : Nat × CmpEmit :=
  let cond := kind + (CondKind.COND_EQ - EX_EQ)
  match lhs, rhs with
  | .fixnum v t, .nonlit t' =>
    gen_compare_core (CondKind.swap_cond cond) (.nonlit t') (.fixnum v t)
  | _, _ => gen_compare_core cond lhs rhs

structure VReg where
  id : Nat
  const : Bool
  fixnum : Int
  size : Nat
  vunsigned : Bool
  deriving DecidableEq, Repr

/-- Wrap an integer to the value of a C `int` (32-bit two's complement);
models the type of the literal `1` in `1 << (bit - 1)`. -/
def toInt32 (n : Int) : Int := (n + 2 ^ 31) % 2 ^ 32 - 2 ^ 31

/-- Unsigned 64-bit representation of an intptr_t value. -/
def toU64 (x : Int) : Nat := (x % 2 ^ 64).toNat

/-- Signed value of an unsigned 64-bit representation. -/
def ofU64 (n : Nat) : Int := ((n : Int) + 2 ^ 63) % 2 ^ 64 - 2 ^ 63

/-- Machine bitwise AND on 64-bit two's complement intptr_t values. -/
def and64 (a b : Int) : Int := ofU64 (Nat.land (toU64 a) (toU64 b))

/-- Machine bitwise OR on 64-bit two's complement intptr_t values. -/
def or64 (a b : Int) : Int := ofU64 (Nat.lor (toU64 a) (toU64 b))

/-- Machine bitwise complement on 64-bit two's complement intptr_t values. -/
def not64 (a : Int) : Int := ofU64 (2 ^ 64 - 1 - toU64 a)

/-- Result of gen_cast: a fresh constant VReg, the argument register itself,
or the destination of an emitted CAST instruction. -/
inductive CastRes where
  | constant (v : VReg)
  | same
  | castIr (v : VReg)
  deriving DecidableEq, Repr

/-- gen_cast (codegen_expr.c lines 199-225).  For a constant source the value
is folded; `(-1UL) << bit` reinterpreted as intptr_t is -(2^bit), and the sign
test mask `1 << (bit - 1)` is computed at C `int` width and then sign-extended
to intptr_t, exactly as on the machine. -/
def gen_cast (counter : Nat) (reg : VReg) (dst : CType) : Nat × CastRes :=
  if reg.const then
    let value := reg.fixnum
    let dst_size := type_size dst
    let value :=
      if dst_size < reg.size ∧ dst_size < 8 then
        let bit := dst_size * 8
        let mask : Int := -((2 : Int) ^ bit)
        if (match dst with
            | .fixnum _ u => !u
            | .ptr => false) = true ∧ and64 value (toInt32 ((2 : Int) ^ (bit - 1))) ≠ 0 then
          or64 value mask
        else
          and64 value (not64 mask)
      else value
    (counter + 1,
     .constant { id := counter, const := true, fixnum := value, size := dst_size,
                 vunsigned := typeUnsigned dst })
  else
    let dst_size := type_size dst
    let lu := typeUnsigned dst
    let ru := reg.vunsigned
    if dst_size = reg.size ∧ lu = ru then (counter, .same)
    else
      (counter + 1,
       .castIr { id := counter, const := false, fixnum := 0, size := dst_size,
                 vunsigned := lu })

end CE

/-- Helper for C6: the emitted form of the core compare against a fixnum
literal, once the condition is known to lie in the signed range. -/
theorem ce_gen_compare_core_fixnum (cond : Nat) (lhs : CE.CmpExpr) (v : Int) (t : CE.CType)
    (hc1 : CondKind.COND_EQ ≤ cond) (hc2 : cond ≤ CondKind.COND_GT)
    (h : ¬ (v = 0 ∧ (cond = CondKind.COND_EQ ∨ cond = CondKind.COND_NE))) :
    (CE.gen_compare_core cond lhs (.fixnum v t)).2 =
      (if ¬ CE.tyIsLong lhs.ty ∨ CE.is_im32 v then CE.CmpEmit.cmpConst v else .movCmp) := by
  have hadj : CE.adjust_unsigned cond lhs = cond ∨
      CE.adjust_unsigned cond lhs = cond + 4 := by
    unfold CE.adjust_unsigned
    split
    · right; rfl
    · left; rfl
  simp only [CE.gen_compare_core]
  simp only [CondKind.COND_NE, CondKind.COND_EQ, CondKind.COND_GT] at *
  rcases hadj with heq | heq <;> rw [heq] <;> rw [if_neg (by omega)] <;>
    rw [apply_ite Prod.snd]

/-- C6: the emission scheme of gen_compare_expr.  Against the literal 0 with
EQ or NE a test of the left value is emitted; against any other literal a
compare with a constant VReg is emitted unless the left type is long and the
literal does not fit 32 bits signed, in which case (as for a non-literal
right operand) the left value is copied to a fresh VReg and compared; a
literal left operand with a non-literal right operand is swapped into second
position with the condition mirrored by swap_cond. -/
theorem ce_gen_compare_expr_spec (kind : Nat) (hk : kind ≤ CE.EX_GT) (lhs : CE.CmpExpr)
    (v : Int) (t t' : CE.CType) :
    ((kind = CE.EX_EQ ∨ kind = CE.EX_NE) →
      (CE.gen_compare_expr kind lhs (.fixnum 0 t)).2 = .test) ∧
    (¬ (v = 0 ∧ (kind = CE.EX_EQ ∨ kind = CE.EX_NE)) →
      (CE.gen_compare_expr kind lhs (.fixnum v t)).2 =
        (if ¬ CE.tyIsLong lhs.ty ∨ CE.is_im32 v then CE.CmpEmit.cmpConst v else .movCmp)) ∧
    ((CE.gen_compare_expr kind (.nonlit t) (.nonlit t')).2 = .movCmp) ∧
    (CE.gen_compare_expr kind (.fixnum v t) (.nonlit t') =
      CE.gen_compare_core (CondKind.swap_cond (kind + (CondKind.COND_EQ - CE.EX_EQ)))
        (.nonlit t') (.fixnum v t)) := by
  refine ⟨?_, ?_, ?_, ?_⟩
  · rintro (rfl | rfl) <;> cases lhs <;>
      simp [CE.gen_compare_expr, CE.gen_compare_core, CE.adjust_unsigned, CE.EX_EQ, CE.EX_NE,
        CondKind.COND_EQ, CondKind.COND_NE]
  · intro h
    have hbase : CondKind.COND_EQ ≤ kind + (CondKind.COND_EQ - CE.EX_EQ) ∧
        kind + (CondKind.COND_EQ - CE.EX_EQ) ≤ CondKind.COND_GT := by
      simp only [CondKind.COND_EQ, CondKind.COND_GT, CE.EX_EQ, CE.EX_GT] at *
      omega
    have h' : ¬ (v = 0 ∧ (kind + (CondKind.COND_EQ - CE.EX_EQ) = CondKind.COND_EQ ∨
        kind + (CondKind.COND_EQ - CE.EX_EQ) = CondKind.COND_NE)) := by
      simp only [CondKind.COND_EQ, CondKind.COND_NE, CE.EX_EQ, CE.EX_NE] at *
      omega
    cases lhs <;>
      exact ce_gen_compare_core_fixnum _ _ v t hbase.1 hbase.2 h'
  · rfl
  · rfl

/-- Witness for C6: concrete instances of each clause. -/
theorem ce_gen_compare_expr_spec_witness :
    (CE.gen_compare_expr CE.EX_EQ (.nonlit (.fixnum .fxInt false))
        (.fixnum 0 (.fixnum .fxInt false))).2 = .test ∧
    (CE.gen_compare_expr CE.EX_LT (.nonlit (.fixnum .fxInt false))
        (.fixnum 7 (.fixnum .fxInt false))).2 = .cmpConst 7 ∧
    (CE.gen_compare_expr CE.EX_LT (.nonlit (.fixnum .fxLong false))
        (.fixnum 4294967296 (.fixnum .fxLong false))).2 = .movCmp ∧
    (CE.gen_compare_expr CE.EX_LT (.nonlit (.fixnum .fxInt false))
        (.nonlit (.fixnum .fxInt false))).2 = .movCmp ∧
    CE.gen_compare_expr CE.EX_LT (.fixnum 7 (.fixnum .fxInt false))
        (.nonlit (.fixnum .fxInt false)) =
      CE.gen_compare_core (CondKind.swap_cond (CE.EX_LT + (CondKind.COND_EQ - CE.EX_EQ)))
        (.nonlit (.fixnum .fxInt false)) (.fixnum 7 (.fixnum .fxInt false)) := by
  have h1 := ce_gen_compare_expr_spec CE.EX_EQ (by decide)
    (.nonlit (.fixnum .fxInt false)) 0 (.fixnum .fxInt false) (.fixnum .fxInt false)
  have h2 := ce_gen_compare_expr_spec CE.EX_LT (by decide)
    (.nonlit (.fixnum .fxInt false)) 7 (.fixnum .fxInt false) (.fixnum .fxInt false)
  have h3 := ce_gen_compare_expr_spec CE.EX_LT (by decide)
    (.nonlit (.fixnum .fxLong false)) 4294967296 (.fixnum .fxLong false)
    (.fixnum .fxLong false)
  refine ⟨h1.1 (Or.inl rfl), ?_, ?_, h2.2.2.1, h2.2.2.2⟩
  · rw [h2.2.1 (by decide)]
    decide
  · rw [h3.2.1 (by decide)]
    decide

/-- C10 failing input: gen_cast applied to the constant 4294967296 (a VReg of
size 8) with destination type signed int (size 4).  Bit 31 of the value is
clear and the zero-extension of the value to 4 bytes is 0, yet the code
returns the constant -4294967296: the sign test `1 << 31` is computed at C
int width and sign-extends to the mask 0xFFFFFFFF80000000, so bit 32 of the
value triggers the sign-extension branch. -/
theorem ce_gen_cast_wrong_sign_extension :
    CE.gen_cast 10 ⟨0, true, 4294967296, 8, false⟩ (CE.CType.fixnum .fxInt false)
      = (11, .constant ⟨10, true, -4294967296, 4, false⟩) ∧
    CE.and64 4294967296 (2 ^ 31) = 0 ∧
    CE.and64 4294967296 (2 ^ 32 - 1) = 0 := by
  refine ⟨?_, by decide, by decide⟩
  decide

namespace CG

/-!
Model of the basic-block state used by gen_expr's EX_LOGAND case and
gen_cond_jmp (src/cc/codegen_expr.c lines 80-197 and 823-841), together with
an execution semantics for the generated control-flow graph.  bb_split and
set_curbb follow the spec's BB-container contract: a split inserts the fresh
block right after its argument, and the fallthrough successor of a block is
the next block in the container.
-/

inductive Inst where
  | test (src : Nat)
  | jmp (cond : Nat) (target : Nat)
  | movc (dst : Nat) (v : Int)
  deriving DecidableEq, Repr

structure St where
  bbs : List (Nat × List Inst)
  curbb : Nat
  nextBB : Nat
  nextReg : Nat
  deriving DecidableEq, Repr

def emit (i : Inst) (s : St) : St :=
  { s with bbs := s.bbs.map (fun b => if b.1 = s.curbb then (b.1, b.2 ++ [i]) else b) }

def insertAfter (bbs : List (Nat × List Inst)) (bbId newId : Nat) :
    List (Nat × List Inst) :=
  match bbs with
  | [] => []
  | b :: rest =>
    if b.1 = bbId then b :: (newId, []) :: rest else b :: insertAfter rest bbId newId

/-- bb_split: create a fresh empty block linked right after the given one. -/
def bb_split (bbId : Nat) (s : St) : Nat × St :=
  (s.nextBB,
   { s with nextBB := s.nextBB + 1, bbs := insertAfter s.bbs bbId s.nextBB })

def set_curbb (bb : Nat) (s : St) : St := { s with curbb := bb }

/-- A condition operand: a local variable's VReg or a fixnum literal. -/
inductive CondExpr where
  | cvar (r : Nat)
  | cfix (v : Int)
  deriving DecidableEq, Repr

/-- gen_cond_jmp (codegen_expr.c lines 80-197) restricted to the EX_FIXNUM
case and the default case (evaluate, test, conditional jump). -/
def gen_cond_jmp (cond : CondExpr) (tf : Bool) (bb : Nat) (s : St) : St :=
  match cond with
  | .cfix v =>
    let tf := if v = 0 then !tf else tf
    if tf then emit (.jmp CondKind.COND_ANY bb) s else s
  | .cvar r =>
    let s := emit (.test r) s
    emit (.jmp (if tf then CondKind.COND_NE else CondKind.COND_EQ) bb) s

/-- The EX_LOGAND case of gen_expr (codegen_expr.c lines 823-841). -/
def gen_logand (lhs rhs : CondExpr) (s : St) : Nat × St :=
  let (bb1, s) := bb_split s.curbb s
  let (bb2, s) := bb_split bb1 s
  let (false_bb, s) := bb_split bb2 s
  let (next_bb, s) := bb_split false_bb s
  let s := gen_cond_jmp lhs false false_bb s
  let s := set_curbb bb1 s
  let s := gen_cond_jmp rhs false false_bb s
  let s := set_curbb bb2 s
  let result := s.nextReg
  let s := { s with nextReg := s.nextReg + 1 }
  let s := emit (.movc result 1) s
  let s := emit (.jmp CondKind.COND_ANY next_bb) s
  let s := set_curbb false_bb s
  let s := emit (.movc result 0) s
  let s := set_curbb next_bb s
  (result, s)

/-- Execute one block's instruction list: final environment, last tested
value, and the taken jump target if any. -/
def execInsts : List Inst → (Nat → Int) → Int → ((Nat → Int) × Int × Option Nat)
  | [], env, lt => (env, lt, none)
  | i :: rest, env, lt =>
    match i with
    | .test r => execInsts rest env (env r)
    | .movc d v => execInsts rest (fun k => if k = d then v else env k) lt
    | .jmp c t =>
      if c = CondKind.COND_ANY then (env, lt, some t)
      else if c = CondKind.COND_EQ then
        if lt = 0 then (env, lt, some t) else execInsts rest env lt
      else if c = CondKind.COND_NE then
        if lt ≠ 0 then (env, lt, some t) else execInsts rest env lt
      else execInsts rest env lt

def bbInsts : List (Nat × List Inst) → Nat → List Inst
  | [], _ => []
  | b :: rest, id => if b.1 = id then b.2 else bbInsts rest id

/-- Fallthrough successor: the next block in the container. -/
def nextOf (bbs : List (Nat × List Inst)) (id : Nat) : Option Nat :=
  match bbs with
  | [] => none
  | b :: rest => if b.1 = id then (rest.head?).map Prod.fst else nextOf rest id

/-- Run the CFG from block `cur` until reaching `stop` (fuel-bounded); returns
the final environment and the list of executed block ids. -/
def run (bbs : List (Nat × List Inst)) (stop fuel cur : Nat) (env : Nat → Int) (lt : Int) :
    Option ((Nat → Int) × List Nat) :=
  match fuel with
  | 0 => none
  | fuel + 1 =>
    if cur = stop then some (env, [])
    else
      match execInsts (bbInsts bbs cur) env lt with
      | (env', lt', jt) =>
        match (match jt with | some t => some t | none => nextOf bbs cur) with
        | none => none
        | some t => (run bbs stop fuel t env' lt').map (fun p => (p.1, cur :: p.2))

end CG

namespace CG

/-- Codegen state at the start of lowering `a && b`: one open block, fresh
VReg counter n. -/
def logandStart (n : Nat) : St :=
  { bbs := [(0, [])], curbb := 0, nextBB := 1, nextReg := n }

end CG

/-- C5: lowering `a && b` (for local-variable operands in VRegs ra and rb,
both below the fresh counter n) produces the block sequence eval-lhs,
eval-rhs, all-true, false-sink, join; the result is the fresh VReg n
(distinct from ra and rb), MOV #1 sits on the all-true path and MOV #0 on
the false path, both paths reach the join block, the instruction evaluating
b (the test in block 1) executes iff a's value is nonzero, and the result
VReg ends up holding 1 iff both values are nonzero and 0 otherwise. -/
theorem cg_gen_logand_spec (ra rb n : Nat) (hra : ra < n) (hrb : rb < n) (env : Nat → Int) :
    (CG.gen_logand (.cvar ra) (.cvar rb) (CG.logandStart n)).1 = n ∧
    n ≠ ra ∧ n ≠ rb ∧
    (CG.gen_logand (.cvar ra) (.cvar rb) (CG.logandStart n)).2.curbb = 4 ∧
    (CG.gen_logand (.cvar ra) (.cvar rb) (CG.logandStart n)).2.bbs =
      [(0, [.test ra, .jmp CondKind.COND_EQ 3]),
       (1, [.test rb, .jmp CondKind.COND_EQ 3]),
       (2, [.movc n 1, .jmp CondKind.COND_ANY 4]),
       (3, [.movc n 0]),
       (4, [])] ∧
    (∃ envF trace,
      CG.run (CG.gen_logand (.cvar ra) (.cvar rb) (CG.logandStart n)).2.bbs 4 5 0 env 0
        = some (envF, trace) ∧
      envF n = (if env ra ≠ 0 ∧ env rb ≠ 0 then (1 : Int) else 0) ∧
      ((1 : Nat) ∈ trace ↔ env ra ≠ 0) ∧
      ∀ k, k ≠ n → envF k = env k) := by
  have hbbs : (CG.gen_logand (.cvar ra) (.cvar rb) (CG.logandStart n)).2.bbs =
      [(0, [.test ra, .jmp CondKind.COND_EQ 3]),
       (1, [.test rb, .jmp CondKind.COND_EQ 3]),
       (2, [.movc n 1, .jmp CondKind.COND_ANY 4]),
       (3, [.movc n 0]),
       (4, [])] := rfl
  refine ⟨rfl, by omega, by omega, rfl, hbbs, ?_⟩
  rw [hbbs]
  by_cases ha : env ra = 0
  · refine ⟨fun k => if k = n then 0 else env k, [0, 3], ?_, ?_, ?_, ?_⟩
    · simp [CG.run, CG.execInsts, CG.bbInsts, CG.nextOf, ha,
        CondKind.COND_ANY, CondKind.COND_EQ, CondKind.COND_NE]
    · simp [ha]
    · simp [ha]
    · intro k hk
      simp [hk]
  · by_cases hb : env rb = 0
    · refine ⟨fun k => if k = n then 0 else env k, [0, 1, 3], ?_, ?_, ?_, ?_⟩
      · simp [CG.run, CG.execInsts, CG.bbInsts, CG.nextOf, ha, hb,
          CondKind.COND_ANY, CondKind.COND_EQ, CondKind.COND_NE]
      · simp [ha, hb]
      · simp [ha]
      · intro k hk
        simp [hk]
    · refine ⟨fun k => if k = n then 1 else env k, [0, 1, 2], ?_, ?_, ?_, ?_⟩
      · simp [CG.run, CG.execInsts, CG.bbInsts, CG.nextOf, ha, hb,
          CondKind.COND_ANY, CondKind.COND_EQ, CondKind.COND_NE]
      · simp [ha, hb]
      · simp [ha]
      · intro k hk
        simp [hk]

/-- Witness for C5 at ra = 0, rb = 1, n = 2 and a concrete environment. -/
theorem cg_gen_logand_spec_witness :
    (CG.gen_logand (.cvar 0) (.cvar 1) (CG.logandStart 2)).1 = 2 ∧
    (∃ envF trace,
      CG.run (CG.gen_logand (.cvar 0) (.cvar 1) (CG.logandStart 2)).2.bbs 4 5 0
          (fun k => if k = 0 then 5 else if k = 1 then 7 else 0) 0
        = some (envF, trace) ∧
      envF 2 = 1 ∧ ((1 : Nat) ∈ trace)) := by
  have h := cg_gen_logand_spec 0 1 2 (by decide) (by decide)
    (fun k => if k = 0 then 5 else if k = 1 then 7 else 0)
  obtain ⟨h1, -, -, -, -, envF, trace, hrun, hval, htr, -⟩ := h
  refine ⟨h1, envF, trace, hrun, ?_, ?_⟩
  · simpa using hval
  · exact htr.mpr (by norm_num)

namespace WC

/-!
Model of construct_initial_value from src/wasm/src/wcc.c lines 79-171 and the
data-segment builder around it.  Data is a byte list; a Fixnum is a 64-bit
integer; fixnum sizes follow init_compiler (wcc.c lines 515-520: long is
4 bytes).  Flonum literals carry their 4- and 8-byte encodings, since IEEE
bit patterns are outside the shallow embedding.  A failed assert or error()
is None.
-/

inductive CType where
  | fixnum (kind : CE.FixnumKind)
  | flonum (dbl : Bool)
  | arr (elem : CType) (length : Nat)
  deriving DecidableEq, Repr

def fixnum_size : CE.FixnumKind → Nat
  | .fxChar => 1
  | .fxShort => 2
  | .fxInt => 4
  | .fxLong => 4
  | .fxLLong => 8
  | .fxEnum => 4

def type_size : CType → Nat
  | .fixnum k => fixnum_size k
  | .flonum dbl => if dbl then 8 else 4
  | .arr e n => type_size e * n

mutual

inductive SingleVal where
  | fix (v : Int)
  | flo (b32 : List Nat) (b64 : List Nat)
  | str (bytes : List Nat)

inductive Init where
  | single (v : SingleVal)
  | multi (elems : List ArrInit)

inductive ArrInit where
  | plain (i : Init)
  | arr (index : Nat) (value : Init)

end

/-- Little-endian bytes of a Fixnum: buf[i] = v >> (i*8) truncated to a byte. -/
def fixBytes (v : Int) (size : Nat) : List Nat :=
  (List.range size).map (fun i => CE.toU64 v / 2 ^ (8 * i) % 256)

/-- What a NULL initializer emits: fixnum and flonum emit zero bytes of their
size, but for an array the padding loop sits inside `if (init != NULL)`, so
nothing at all is emitted. -/
def zeroEmission : CType → List Nat
  | .fixnum k => List.replicate (fixnum_size k) 0
  | .flonum dbl => List.replicate (if dbl then 8 else 4) 0
  | .arr _ _ => []

mutual

def construct_initial_value : CType → Option Init → Option (List Nat)
  | ty, none => some (zeroEmission ty)
  | .fixnum k, some (.single (.fix v)) => some (fixBytes v (fixnum_size k))
  | .fixnum _, some _ => none
  | .flonum dbl, some (.single (.flo b32 b64)) => some (if dbl then b64 else b32)
  | .flonum _, some _ => none
  | .arr elem len, some (.multi elems) =>
    (constructArr elem elems 0).map (fun p =>
      p.1 ++ (List.range (len - p.2)).foldr (fun _ acc => zeroEmission elem ++ acc) [])
  | .arr elem len, some (.single (.str bytes)) =>
    if elem = .fixnum .fxChar then
      let src_size := bytes.length
      let size := type_size (.arr elem len)
      if src_size ≤ size then
        if src_size < size then some (bytes ++ List.replicate (size - src_size) 0)
        else some bytes
      else none
    else none
  | .arr _ _, some _ => none

/-- The element loop of the IK_MULTI case, with IK_ARR designators filling the
gap with NULL emissions; returns the bytes and the final element index. -/
def constructArr (elemT : CType) : List ArrInit → Nat → Option (List Nat × Nat)
  | [], index => some ([], index)
  | .plain i :: rest, index => do
    let b ← construct_initial_value elemT (some i)
    let p ← constructArr elemT rest (index + 1)
    return (b ++ p.1, p.2)
  | .arr next val :: rest, index => do
    let gap := (List.range (next - index)).foldr (fun _ acc => zeroEmission elemT ++ acc) []
    let b ← construct_initial_value elemT (some val)
    let p ← constructArr elemT rest (next + 1)
    return (gap ++ b ++ p.1, p.2)

end

end WC

/-- C4 failing input for the WebAssembly emitter: the global
`int a[2][2] = {{1, 2}};` (fixnum long is also 4 bytes here, int shown).
construct_initial_value emits only the 8 bytes of the first row: the padding
call for the missing second row passes a NULL initializer, and for an array
type a NULL initializer emits nothing, so the emission falls 8 bytes short of
type_size = 16 (construct_data_segment nevertheless advances its address
cursor by type_size, misplacing every later variable). -/
theorem wc_construct_initial_value_nested_array_short :
    WC.construct_initial_value (.arr (.arr (.fixnum .fxInt) 2) 2)
        (some (.multi [.plain (.multi [.plain (.single (.fix 1)),
          .plain (.single (.fix 2))])]))
      = some [1, 0, 0, 0, 2, 0, 0, 0] ∧
    WC.type_size (.arr (.arr (.fixnum .fxInt) 2) 2) = 16 ∧
    WC.construct_initial_value (.arr (.fixnum .fxInt) 2) none = some [] := by
  refine ⟨?_, by decide, by simp [WC.construct_initial_value, WC.zeroEmission]⟩
  simp only [WC.construct_initial_value, WC.constructArr, WC.zeroEmission, WC.fixBytes,
    CE.toU64, Option.bind_some, Option.map_some, Option.bind_none, Option.map_none]
  decide

namespace A64

/-!
Model of construct_initial_value from src/cc/arch/aarch64/emit_code.c lines
145-344.  Output is the list of emitted assembler directives; fixnum sizes
are the native 64-bit ones.  A flonum literal carries its 4- and 8-byte
encodings (IEEE patterns are outside the shallow embedding); for byte
accounting only the directive sizes matter.  Bitfield members are not
modelled: calc_bitfield_initial_value lives outside the provided sources.
A failed assert or error() is None.
-/

inductive CType where
  | fixnum (kind : CE.FixnumKind)
  | flonum (dbl : Bool)
  | ptr
  | arr (elem : CType) (length : Nat)
  | struct (members : List CType) (isUnion : Bool) (size : Nat) (salign : Nat)

def type_size : CType → Nat
  | .fixnum k => CE.fixnum_kind_size k
  | .flonum dbl => if dbl then 8 else 4
  | .ptr => 8
  | .arr e n => type_size e * n
  | .struct _ _ sz _ => sz

def align_size : CType → Nat
  | .fixnum k => CE.fixnum_kind_size k
  | .flonum dbl => if dbl then 8 else 4
  | .ptr => 8
  | .arr e _ => align_size e
  | .struct _ _ _ al => al

/-- ALIGN(x, a) on naturals (the macro assumes a positive alignment). -/
def alignN (x a : Nat) : Nat := if a = 0 then x else (x + a - 1) / a * a

inductive Sval where
  | fix (v : Int)
  | flo (b32 : List Nat) (b64 : List Nat)
  | str (bytes : List Nat)

inductive AInit where
  | single (v : Sval)
  | multi (elems : List (Option AInit))

/-- An emitted assembler directive, by its data size. -/
inductive Dir where
  | byte
  | word
  | long
  | quad
  | ascii (n : Nat)
  | align (a : Nat)
  deriving DecidableEq, Repr

/-- is_char_type: a 1-byte char fixnum. -/
def is_char_type : CType → Bool
  | .fixnum .fxChar => true
  | _ => false

/-- The directive used for a fixnum of the given kind (emit_code.c lines
231-240). -/
def dirOfKind : CE.FixnumKind → Dir
  | .fxChar => .byte
  | .fxShort => .word
  | .fxLong => .quad
  | .fxLLong => .quad
  | .fxInt => .long
  | .fxEnum => .long

/-- The trailing struct padding (emit_code.c lines 326-339). -/
def padDirs (d : Nat) : List Dir :=
  if d = 1 then [.byte]
  else if d = 2 then [.word]
  else if d = 4 then [.long]
  else if d = 8 then [.quad]
  else List.replicate d .byte

mutual

def construct_initial_value : CType → Option AInit → Option (List Dir)
  | .flonum dbl, none => some [if dbl then Dir.quad else Dir.long]
  | .flonum dbl, some (.single (.flo _ _)) => some [if dbl then Dir.quad else Dir.long]
  | .flonum _, some _ => none
  | .fixnum k, none => some [dirOfKind k]
  | .fixnum k, some (.single (.fix _)) => some [dirOfKind k]
  | .fixnum _, some _ => none
  | .ptr, none => some [Dir.quad]
  | .ptr, some (.single (.fix _)) => some [Dir.quad]
  | .ptr, some _ => none
  | .arr elem len, none => constructPad elem len
  | .arr elem len, some (.multi elems) => do
    let ds ← constructElems elem elems
    let pad ← constructPad elem (len - elems.length)
    return ds ++ pad
  | .arr elem len, some (.single (.str bytes)) =>
    if is_char_type elem then
      let src_size := bytes.length * type_size (.fixnum .fxChar)
      let size := type_size (.arr elem len)
      let src_size := if src_size > size then size else src_size
      some [.ascii (src_size + (size - src_size))]
    else none
  | .arr _ _, some (.single _) => none
  | .struct members isUnion sz _, none => do
    let r ← constructMembers isUnion members (List.replicate members.length none) 0 0
    let r2 ←
      if isUnion = true ∧ r.2.2 = 0 then
        match members with
        | [] => none
        | m :: _ => (construct_initial_value m none).map (fun d => (d, r.2.1 + type_size m))
      else some ([], r.2.1)
    return r.1 ++ r2.1 ++ (if sz ≠ r2.2 then padDirs (sz - r2.2) else [])
  | .struct members isUnion sz _, some (.multi elems) =>
    if elems.length = members.length then do
      let r ← constructMembers isUnion members elems 0 0
      let r2 ←
        if isUnion = true ∧ r.2.2 = 0 then
          match members with
          | [] => none
          | m :: _ => (construct_initial_value m none).map (fun d => (d, r.2.1 + type_size m))
        else some ([], r.2.1)
      return r.1 ++ r2.1 ++ (if sz ≠ r2.2 then padDirs (sz - r2.2) else [])
    else none
  | .struct _ _ _ _, some (.single _) => none
  termination_by ty oinit => (sizeOf ty, sizeOf oinit)

/-- The array element loop (emit_code.c lines 248-253). -/
def constructElems (elemT : CType) : List (Option AInit) → Option (List Dir)
  | [] => some []
  | oi :: rest => do
    let d ← construct_initial_value elemT oi
    let ds ← constructElems elemT rest
    return d ++ ds
  termination_by l => (sizeOf elemT, sizeOf l)

/-- The array trailing-padding loop (emit_code.c lines 255-257). -/
def constructPad (elemT : CType) : Nat → Option (List Dir)
  | 0 => some []
  | k + 1 => do
    let d ← construct_initial_value elemT none
    let ds ← constructPad elemT k
    return d ++ ds
  termination_by k => (sizeOf elemT, k + 2)

/-- The struct member loop (emit_code.c lines 289-318): the directives, the
final offset and the emitted-member count. -/
def constructMembers (isUnion : Bool) :
    List CType → List (Option AInit) → Nat → Nat → Option (List Dir × Nat × Nat)
  | [], _, offset, count => some ([], offset, count)
  | m :: rest, inits, offset, count =>
    let mi := inits.headD none
    if mi.isSome || !isUnion then
      let a := align_size m
      let adirs : List Dir := if offset % a ≠ 0 then [Dir.align a] else []
      let offset' := if offset % a ≠ 0 then alignN offset a else offset
      do
        let ds ← construct_initial_value m mi
        let r ← constructMembers isUnion rest inits.tail (offset' + type_size m) (count + 1)
        return (adirs ++ ds ++ r.1, r.2.1, r.2.2)
    else
      constructMembers isUnion rest inits.tail offset count
  termination_by ms inits _ _ => (sizeOf ms, sizeOf inits)

end

/-- Byte count of a directive list emitted starting at absolute position p
(an align directive pads the section up to the alignment). -/
def dirBytes (p : Nat) : List Dir → Nat
  | [] => 0
  | d :: rest =>
    match d with
    | .byte => 1 + dirBytes (p + 1) rest
    | .word => 2 + dirBytes (p + 2) rest
    | .long => 4 + dirBytes (p + 4) rest
    | .quad => 8 + dirBytes (p + 8) rest
    | .ascii n => n + dirBytes (p + n) rest
    | .align a => (alignN p a - p) + dirBytes (alignN p a) rest

end A64

namespace A64

/-- Offset reached after laying the members out sequentially from `o`,
aligning each to its own alignment (mirrors the loop's offset accounting). -/
def membersExtent : List CType → Nat → Nat
  | [], o => o
  | m :: rest, o => membersExtent rest (alignN o (align_size m) + type_size m)

/-- Number of non-NULL initializers. -/
def countSome : List (Option AInit) → Nat
  | [] => 0
  | oi :: rest => (if oi.isSome then 1 else 0) + countSome rest

mutual

/-- Well-formed type: array elements have size divisible by their alignment;
struct alignment is positive, is a multiple of every member's alignment, and
the declared size bounds the members' layout (for a union, every member). -/
def wfType : CType → Prop
  | .fixnum _ => True
  | .flonum _ => True
  | .ptr => True
  | .arr e _ => wfType e ∧ align_size e ∣ type_size e
  | .struct members isUnion sz al =>
    wfTypeList members ∧ 0 < al ∧ (∀ m ∈ members, align_size m ∣ al) ∧
    (isUnion = true → members ≠ [] ∧ ∀ m ∈ members, type_size m ≤ sz) ∧
    (isUnion = false → membersExtent members 0 ≤ sz)

def wfTypeList : List CType → Prop
  | [] => True
  | m :: rest => wfType m ∧ wfTypeList rest

end

mutual

/-- Well-formed initializer for a type: the shapes the emitter accepts without
reaching error() or a failed assert, with array initializers no longer than
the array and union initializers filling at most one member. -/
def wfInit : CType → Option AInit → Prop
  | _, none => True
  | .fixnum _, some (.single (.fix _)) => True
  | .flonum _, some (.single (.flo _ _)) => True
  | .ptr, some (.single (.fix _)) => True
  | .arr elem len, some (.multi elems) => elems.length ≤ len ∧ wfInitList elem elems
  | .arr elem _, some (.single (.str _)) => is_char_type elem = true
  | .struct members isUnion _ _, some (.multi elems) =>
    elems.length = members.length ∧ wfInitPairs members elems ∧
    (isUnion = true → countSome elems ≤ 1)
  | _, _ => False
  termination_by ty oinit => (sizeOf ty, sizeOf oinit)

def wfInitList (elem : CType) : List (Option AInit) → Prop
  | [] => True
  | oi :: rest => wfInit elem oi ∧ wfInitList elem rest
  termination_by l => (sizeOf elem, sizeOf l)

def wfInitPairs : List CType → List (Option AInit) → Prop
  | [], _ => True
  | _ :: _, [] => True
  | m :: ms, oi :: rest => wfInit m oi ∧ wfInitPairs ms rest
  termination_by ms inits => (sizeOf ms, sizeOf inits)

end

end A64

/-- Alignment never moves a position backwards. -/
theorem a64_alignN_ge (p a : Nat) : p ≤ A64.alignN p a := by
  unfold A64.alignN
  split
  · exact le_rfl
  · rename_i ha
    have h0 : 0 < a := Nat.pos_of_ne_zero ha
    have hdm := Nat.div_add_mod (p + a - 1) a
    have hlt := Nat.mod_lt (p + a - 1) h0
    have hcomm : (p + a - 1) / a * a = a * ((p + a - 1) / a) := Nat.mul_comm _ _
    omega

/-- The aligned position is a multiple of the alignment. -/
theorem a64_alignN_dvd (p a : Nat) (h : 0 < a) : a ∣ A64.alignN p a := by
  unfold A64.alignN
  rw [if_neg (Nat.pos_iff_ne_zero.mp h)]
  exact Dvd.intro _ (Nat.mul_comm _ _)

/-- Aligning a position already at the alignment is the identity. -/
theorem a64_alignN_eq_of_dvd (p a : Nat) (h : a ∣ p) : A64.alignN p a = p := by
  unfold A64.alignN
  split
  · rfl
  · rename_i ha
    have h0 : 0 < a := Nat.pos_of_ne_zero ha
    obtain ⟨t, rfl⟩ := h
    have h1 : a * t + a - 1 = a * t + (a - 1) := by omega
    rw [h1, Nat.mul_add_div h0, Nat.div_eq_of_lt (by omega), Nat.add_zero, Nat.mul_comm]

/-- Aligning past a multiple of the alignment distributes. -/
theorem a64_alignN_add_multiple (p o a : Nat) (h : a ∣ p) :
    A64.alignN (p + o) a = p + A64.alignN o a := by
  by_cases ha : a = 0
  · simp [A64.alignN, ha]
  · have h0 : 0 < a := Nat.pos_of_ne_zero ha
    obtain ⟨t, rfl⟩ := h
    unfold A64.alignN
    rw [if_neg ha, if_neg ha]
    have h1 : a * t + o + a - 1 = a * t + (o + a - 1) := by omega
    rw [h1, Nat.mul_add_div h0, Nat.add_mul, Nat.mul_comm t a]

/-- Aligning position zero stays at zero. -/
theorem a64_alignN_zero (a : Nat) : A64.alignN 0 a = 0 := by
  by_cases ha : a = 0
  · simp [A64.alignN, ha]
  · unfold A64.alignN
    rw [if_neg ha]
    have h1 : 0 + a - 1 = a - 1 := by omega
    rw [h1, Nat.div_eq_of_lt (by omega), Nat.zero_mul]

namespace A64

/-- End position after emitting a directive list from position p. -/
def dirEnd (p : Nat) : List Dir → Nat
  | [] => p
  | d :: rest =>
    match d with
    | .byte => dirEnd (p + 1) rest
    | .word => dirEnd (p + 2) rest
    | .long => dirEnd (p + 4) rest
    | .quad => dirEnd (p + 8) rest
    | .ascii n => dirEnd (p + n) rest
    | .align a => dirEnd (alignN p a) rest

end A64

/-- The end position is the start plus the byte count. -/
theorem a64_dirEnd_eq (xs : List A64.Dir) : ∀ p, A64.dirEnd p xs = p + A64.dirBytes p xs := by
  induction xs with
  | nil => intro p; simp [A64.dirEnd, A64.dirBytes]
  | cons d rest ihx =>
    intro p
    cases d
    case align a =>
      simp only [A64.dirEnd, A64.dirBytes]
      rw [ihx]
      have hge := a64_alignN_ge p a
      omega
    all_goals (simp only [A64.dirEnd, A64.dirBytes]; rw [ihx]; omega)

/-- Byte count of a concatenation, with the tail starting at the end position
of the head. -/
theorem a64_dirBytes_append (xs ys : List A64.Dir) :
    ∀ p, A64.dirBytes p (xs ++ ys) =
      A64.dirBytes p xs + A64.dirBytes (A64.dirEnd p xs) ys := by
  induction xs with
  | nil => intro p; simp [A64.dirBytes, A64.dirEnd]
  | cons d rest ihx =>
    intro p
    cases d <;>
      (simp only [List.cons_append, List.append_eq, A64.dirBytes, A64.dirEnd]; rw [ihx]; omega)

/-- End position of a concatenation. -/
theorem a64_dirEnd_append (xs ys : List A64.Dir) :
    ∀ p, A64.dirEnd p (xs ++ ys) = A64.dirEnd (A64.dirEnd p xs) ys := by
  induction xs with
  | nil => intro p; simp [A64.dirEnd]
  | cons d rest ihx =>
    intro p
    cases d <;>
      (simp only [List.cons_append, List.append_eq, A64.dirEnd]; rw [ihx])

/-- Byte count of the replicated-byte padding. -/
theorem a64_bytes_replicate (n : Nat) : ∀ p, A64.dirBytes p (List.replicate n .byte) = n := by
  induction n with
  | zero => intro p; simp [A64.dirBytes]
  | succ n ihn =>
    intro p
    simp only [List.replicate, A64.dirBytes, ihn]
    omega

/-- The struct padding always contributes exactly its byte count. -/
theorem a64_padDirs_bytes (d p : Nat) : A64.dirBytes p (A64.padDirs d) = d := by
  unfold A64.padDirs
  split_ifs with h1 h2 h4 h8 <;>
    simp [A64.dirBytes, a64_bytes_replicate, *]

/-- A well-formed type has positive alignment. -/
theorem a64_align_size_pos : ∀ t : A64.CType, A64.wfType t → 0 < A64.align_size t
  | .fixnum k, _ => by cases k <;> simp [A64.align_size, CE.fixnum_kind_size]
  | .flonum dbl, _ => by cases dbl <;> simp [A64.align_size]
  | .ptr, _ => by simp [A64.align_size]
  | .arr e n, h => by
    have he : A64.wfType e := by
      rw [A64.wfType] at h
      exact h.1
    simpa [A64.align_size] using a64_align_size_pos e he
  | .struct members isUnion sz al, h => by
    rw [A64.wfType] at h
    simpa [A64.align_size] using h.2.1

/-- Members of a well-formed member list are well-formed. -/
theorem a64_wfTypeList_mem : ∀ ms : List A64.CType, A64.wfTypeList ms →
    ∀ m ∈ ms, A64.wfType m := by
  intro ms
  induction ms with
  | nil => intro _ m hm; cases hm
  | cons a rest iha =>
    intro h m hm
    rw [A64.wfTypeList] at h
    rcases List.mem_cons.mp hm with rfl | hm
    · exact h.1
    · exact iha h.2 m hm

/-- A list of NULL member initializers is pairwise well-formed. -/
theorem a64_pairs_replicate : ∀ (ms : List A64.CType) (n : Nat),
    A64.wfInitPairs ms (List.replicate n none) := by
  intro ms
  induction ms with
  | nil => intro n; rw [A64.wfInitPairs]; trivial
  | cons m rest ihm =>
    intro n
    cases n with
    | zero => simp only [List.replicate_zero]; rw [A64.wfInitPairs]; trivial
    | succ n =>
      rw [List.replicate, A64.wfInitPairs]
      exact ⟨by rw [A64.wfInit]; trivial, ihm n⟩

/-- A list of NULL initializers has no non-NULL entry. -/
theorem a64_countSome_replicate (n : Nat) :
    A64.countSome (List.replicate n none) = 0 := by
  induction n with
  | zero => simp only [List.replicate_zero]; rw [A64.countSome]
  | succ n ihn => rw [List.replicate, A64.countSome]; simp [ihn]

/-- Size invariant of the AArch64 data emitter, by strong induction on the
type size: a well-formed type and initializer always emit without error, and
from any position aligned for the type the directives cover exactly
type_size bytes. -/
theorem a64_construct_size_aux :
    ∀ N : Nat, ∀ ty : A64.CType, sizeOf ty ≤ N → ∀ init : Option A64.AInit,
      A64.wfType ty → A64.wfInit ty init → ∀ p : Nat, A64.align_size ty ∣ p →
      ∃ ds, A64.construct_initial_value ty init = some ds ∧
        A64.dirBytes p ds = A64.type_size ty := by
  intro N
  induction N with
  | zero =>
    intro ty hsz
    exfalso
    cases ty <;> simp at hsz
  | succ N ih =>
    intro ty hsz init hwt hwi p hp
    cases ty with
    | fixnum k =>
      cases init with
      | none =>
        exact ⟨[A64.dirOfKind k], by simp [A64.construct_initial_value],
          by cases k <;> simp [A64.dirOfKind, A64.dirBytes, A64.type_size, CE.fixnum_kind_size]⟩
      | some i =>
        cases i with
        | multi es => simp [A64.wfInit] at hwi
        | single v =>
          cases v with
          | fix w =>
            exact ⟨[A64.dirOfKind k], by simp [A64.construct_initial_value],
              by cases k <;>
                simp [A64.dirOfKind, A64.dirBytes, A64.type_size, CE.fixnum_kind_size]⟩
          | flo b32 b64 => simp [A64.wfInit] at hwi
          | str bs => simp [A64.wfInit] at hwi
    | flonum dbl =>
      cases init with
      | none =>
        exact ⟨[if dbl then .quad else .long], by simp [A64.construct_initial_value],
          by cases dbl <;> simp [A64.dirBytes, A64.type_size]⟩
      | some i =>
        cases i with
        | multi es => simp [A64.wfInit] at hwi
        | single v =>
          cases v with
          | flo b32 b64 =>
            exact ⟨[if dbl then .quad else .long], by simp [A64.construct_initial_value],
              by cases dbl <;> simp [A64.dirBytes, A64.type_size]⟩
          | fix w => simp [A64.wfInit] at hwi
          | str bs => simp [A64.wfInit] at hwi
    | ptr =>
      cases init with
      | none =>
        exact ⟨[.quad], by simp [A64.construct_initial_value],
          by simp [A64.dirBytes, A64.type_size]⟩
      | some i =>
        cases i with
        | multi es => simp [A64.wfInit] at hwi
        | single v =>
          cases v with
          | fix w =>
            exact ⟨[.quad], by simp [A64.construct_initial_value],
              by simp [A64.dirBytes, A64.type_size]⟩
          | flo b32 b64 => simp [A64.wfInit] at hwi
          | str bs => simp [A64.wfInit] at hwi
    | arr elem len =>
      rw [A64.wfType] at hwt
      obtain ⟨hwe, hdv⟩ := hwt
      have hszE : sizeOf elem ≤ N := by simp at hsz; omega
      have hpe : A64.align_size elem ∣ p := by
        simp only [A64.align_size] at hp
        exact hp
      have lemPad : ∀ k q, A64.align_size elem ∣ q →
          ∃ ds, A64.constructPad elem k = some ds ∧
            A64.dirBytes q ds = A64.type_size elem * k := by
        intro k
        induction k with
        | zero =>
          intro q _
          exact ⟨[], by rw [A64.constructPad], by simp [A64.dirBytes]⟩
        | succ k ihk =>
          intro q hq
          obtain ⟨d1, hd1, hb1⟩ := ih elem hszE none hwe (by simp [A64.wfInit]) q hq
          obtain ⟨ds, hds, hbs⟩ := ihk (q + A64.type_size elem) (dvd_add hq hdv)
          refine ⟨d1 ++ ds, ?_, ?_⟩
          · rw [A64.constructPad, hd1, hds]
            rfl
          · rw [a64_dirBytes_append, a64_dirEnd_eq, hb1, hbs]
            ring
      cases init with
      | none =>
        obtain ⟨ds, hds, hbs⟩ := lemPad len p hpe
        refine ⟨ds, by rw [A64.construct_initial_value]; exact hds, ?_⟩
        rw [hbs]
        simp [A64.type_size]
      | some i =>
        cases i with
        | multi elems =>
          simp only [A64.wfInit] at hwi
          obtain ⟨hlen, hwl⟩ := hwi
          have lemElems : ∀ (l : List (Option A64.AInit)) q, A64.wfInitList elem l →
              A64.align_size elem ∣ q →
              ∃ ds, A64.constructElems elem l = some ds ∧
                A64.dirBytes q ds = A64.type_size elem * l.length := by
            intro l
            induction l with
            | nil =>
              intro q _ _
              exact ⟨[], by rw [A64.constructElems], by simp [A64.dirBytes]⟩
            | cons oi rest ihl =>
              intro q hwll hq
              rw [A64.wfInitList] at hwll
              obtain ⟨hwo, hwr⟩ := hwll
              obtain ⟨d1, hd1, hb1⟩ := ih elem hszE oi hwe hwo q hq
              obtain ⟨ds, hds, hbs⟩ := ihl (q + A64.type_size elem) hwr (dvd_add hq hdv)
              refine ⟨d1 ++ ds, ?_, ?_⟩
              · rw [A64.constructElems, hd1, hds]
                rfl
              · rw [a64_dirBytes_append, a64_dirEnd_eq, hb1, hbs, List.length_cons]
                ring
          obtain ⟨ds1, hds1, hbs1⟩ := lemElems elems p hwl hpe
          obtain ⟨ds2, hds2, hbs2⟩ :=
            lemPad (len - elems.length) (p + A64.type_size elem * elems.length)
              (dvd_add hpe (hdv.mul_right _))
          refine ⟨ds1 ++ ds2, ?_, ?_⟩
          · rw [A64.construct_initial_value, hds1, hds2]
            rfl
          · rw [a64_dirBytes_append, a64_dirEnd_eq, hbs1, hbs2, ← Nat.mul_add,
              Nat.add_sub_cancel' hlen]
            simp [A64.type_size]
        | single v =>
          cases v with
          | str bs =>
            simp only [A64.wfInit] at hwi
            refine ⟨_, by rw [A64.construct_initial_value, if_pos hwi], ?_⟩
            simp only [A64.dirBytes]
            split_ifs with hgt <;> omega
          | fix w => simp [A64.wfInit] at hwi
          | flo b32 b64 => simp [A64.wfInit] at hwi
    | struct members isUnion sz al =>
      rw [A64.wfType] at hwt
      obtain ⟨hml, hal0, hdiv, hunion, hnonun⟩ := hwt
      have halp : al ∣ p := by
        simp only [A64.align_size] at hp
        exact hp
      have hmemN : ∀ m ∈ members, sizeOf m ≤ N := by
        intro m hm
        have h1 := List.sizeOf_lt_of_mem hm
        simp at hsz
        omega
      have hwtm : ∀ m ∈ members, A64.wfType m := a64_wfTypeList_mem members hml
      have lemMembers : ∀ (ms : List A64.CType) (inits : List (Option A64.AInit))
          (o count : Nat),
          (∀ m ∈ ms, m ∈ members) → inits.length = ms.length →
          A64.wfInitPairs ms inits →
          (isUnion = true → A64.countSome inits ≤ 1) →
          ∃ r, A64.constructMembers isUnion ms inits o count = some r ∧
            A64.dirBytes (p + o) r.1 = r.2.1 - o ∧ o ≤ r.2.1 ∧
            (isUnion = false → r.2.1 = A64.membersExtent ms o ∧ r.2.2 = count + ms.length) ∧
            (isUnion = true → A64.countSome inits = 0 →
              r.1 = [] ∧ r.2.1 = o ∧ r.2.2 = count) ∧
            (isUnion = true → A64.countSome inits = 1 →
              r.2.2 = count + 1 ∧
              ∃ m ∈ ms, r.2.1 = A64.alignN o (A64.align_size m) + A64.type_size m) := by
        intro ms
        induction ms with
        | nil =>
          intro inits o count _ hlen _ _
          have hinil : inits = [] := List.eq_nil_of_length_eq_zero hlen
          subst hinil
          refine ⟨([], o, count), by rw [A64.constructMembers], ?_⟩
          refine ⟨by simp [A64.dirBytes], le_rfl, ?_, ?_, ?_⟩
          · intro _
            exact ⟨by rw [A64.membersExtent], by simp⟩
          · intro _ _
            exact ⟨rfl, rfl, rfl⟩
          · intro _ hcs
            rw [A64.countSome] at hcs
            exact absurd hcs (by omega)
        | cons m rest ihm =>
          intro inits o count hsub hlen hpairs hcs1
          cases inits with
          | nil => simp at hlen
          | cons mi tl =>
            have hmm : m ∈ members := hsub m (List.mem_cons_self m rest)
            have hsubr : ∀ m' ∈ rest, m' ∈ members := by
              intro m' hm'
              exact hsub m' (List.mem_cons_of_mem m hm')
            have hlenr : tl.length = rest.length := by simpa using hlen
            have hpairsr : A64.wfInitPairs rest tl := by
              rw [A64.wfInitPairs] at hpairs
              exact hpairs.2
            have hwfmi : A64.wfInit m mi := by
              rw [A64.wfInitPairs] at hpairs
              exact hpairs.1
            have ha : A64.align_size m ∣ al := hdiv m hmm
            have hap : A64.align_size m ∣ p := ha.trans halp
            have hapos : 0 < A64.align_size m := a64_align_size_pos m (hwtm m hmm)
            by_cases hemit : (mi.isSome || !isUnion) = true
            · -- the member is emitted
              have hoff : (if o % A64.align_size m ≠ 0 then A64.alignN o (A64.align_size m)
                  else o) = A64.alignN o (A64.align_size m) := by
                split
                · rfl
                · rename_i h0
                  rw [a64_alignN_eq_of_dvd o _ (Nat.dvd_of_mod_eq_zero (by omega))]
              obtain ⟨ds, hds, hbds⟩ := ih m (hmemN m hmm) mi (hwtm m hmm) hwfmi
                (p + A64.alignN o (A64.align_size m))
                (dvd_add hap (a64_alignN_dvd o _ hapos))
              obtain ⟨r', hr', hb', ho', hnu', hcz', hco'⟩ :=
                ihm tl (A64.alignN o (A64.align_size m) + A64.type_size m) (count + 1)
                  hsubr hlenr hpairsr
                  (fun hu => by
                    have := hcs1 hu
                    rw [A64.countSome] at this
                    omega)
              have hgeo := a64_alignN_ge o (A64.align_size m)
              have hbad : A64.dirBytes (p + o)
                    (if o % A64.align_size m ≠ 0 then [A64.Dir.align (A64.align_size m)]
                     else []) = A64.alignN o (A64.align_size m) - o ∧
                  A64.dirEnd (p + o)
                    (if o % A64.align_size m ≠ 0 then [A64.Dir.align (A64.align_size m)]
                     else []) = p + A64.alignN o (A64.align_size m) := by
                split
                · rename_i h0
                  constructor
                  · simp only [A64.dirBytes]
                    rw [a64_alignN_add_multiple p o _ hap]
                    omega
                  · simp only [A64.dirEnd]
                    rw [a64_alignN_add_multiple p o _ hap]
                · rename_i h0
                  have heq : A64.alignN o (A64.align_size m) = o :=
                    a64_alignN_eq_of_dvd o _ (Nat.dvd_of_mod_eq_zero (by omega))
                  constructor
                  · simp [A64.dirBytes, heq]
                  · simp [A64.dirEnd, heq]
              have hrun : A64.constructMembers isUnion (m :: rest) (mi :: tl) o count
                  = some ((if o % A64.align_size m ≠ 0 then
                      [A64.Dir.align (A64.align_size m)] else []) ++ ds ++ r'.1,
                      r'.2.1, r'.2.2) := by
                rw [A64.constructMembers]
                simp only [List.headD_cons, List.tail_cons, hemit, if_true, hoff, hds, hr',
                  Option.bind_some]
                rfl
              refine ⟨_, hrun, ?_, ?_, ?_, ?_, ?_⟩
              all_goals dsimp only
              · rw [a64_dirBytes_append, a64_dirBytes_append, hbad.1, hbad.2, hbds,
                  a64_dirEnd_append, hbad.2, a64_dirEnd_eq, hbds]
                rw [← Nat.add_assoc] at hb'
                rw [hb']
                omega
              · omega
              · intro hu
                obtain ⟨hext, hcnt⟩ := hnu' hu
                constructor
                · rw [A64.membersExtent, ← hext]
                · rw [hcnt, List.length_cons]
                  omega
              · intro hu hcz
                rw [hu] at hemit
                simp at hemit
                rw [A64.countSome, hemit] at hcz
                simp at hcz
              · intro hu hcs
                have hmi : mi.isSome = true := by
                  rw [hu] at hemit
                  simpa using hemit
                have htl0 : A64.countSome tl = 0 := by
                  rw [A64.countSome, hmi] at hcs
                  simpa using hcs
                obtain ⟨hr1, hr2, hr3⟩ := hcz' hu htl0
                refine ⟨hr3, m, List.mem_cons_self m rest, hr2⟩
            · -- union member with NULL initializer: skipped
              have hcond : mi.isSome = false ∧ isUnion = true := by
                cases hval : mi.isSome <;> cases hu : isUnion <;>
                  simp [hval, hu] at hemit ⊢
              have hcseq : A64.countSome (mi :: tl) = A64.countSome tl := by
                rw [A64.countSome, hcond.1]
                simp
              obtain ⟨r', hr', hb', ho', hnu', hcz', hco'⟩ :=
                ihm tl o count hsubr hlenr hpairsr
                  (fun hu => by rw [← hcseq]; exact hcs1 hu)
              have hrun : A64.constructMembers isUnion (m :: rest) (mi :: tl) o count
                  = some r' := by
                have hr2 := hr'
                rw [hcond.2] at hr2
                rw [A64.constructMembers]
                simp only [List.headD_cons, List.tail_cons, hcond.1, hcond.2]
                simpa using hr2
              refine ⟨r', hrun, hb', ho', ?_, ?_, ?_⟩
              · intro hfalse
                rw [hfalse] at hcond
                exact absurd hcond.2 (by simp)
              · intro hu hcz
                exact hcz' hu (by rw [← hcseq]; exact hcz)
              · intro hu hcs
                obtain ⟨h1, m', hm', h2⟩ := hco' hu (by rw [← hcseq]; exact hcs)
                exact ⟨h1, m', List.mem_cons_of_mem m hm', h2⟩
      have lemBytes : ∀ (d1 d2 : List A64.Dir) (x : Nat),
          A64.dirBytes p (d1 ++ d2) = x → x ≤ sz →
          A64.dirBytes p (d1 ++ d2 ++ (if sz ≠ x then A64.padDirs (sz - x) else [])) = sz := by
        intro d1 d2 x hb hle
        rw [a64_dirBytes_append, hb]
        split_ifs with hne
        · rw [a64_padDirs_bytes]
          omega
        · simp only [A64.dirBytes]
          omega
      cases init with
      | none =>
        obtain ⟨r, hr, hbr, hor, hnu, hcz, hco⟩ :=
          lemMembers members (List.replicate members.length none) 0 0
            (fun m hm => hm) (by simp) (a64_pairs_replicate members members.length)
            (fun _ => by rw [a64_countSome_replicate]; omega)
        cases isUnion with
        | false =>
          obtain ⟨hext, -⟩ := hnu rfl
          have hle : r.2.1 ≤ sz := by rw [hext]; exact hnonun rfl
          have hb : A64.dirBytes p (r.1 ++ []) = r.2.1 := by
            rw [List.append_nil]
            simpa using hbr
          refine ⟨r.1 ++ [] ++ (if sz ≠ r.2.1 then A64.padDirs (sz - r.2.1) else []), ?_, ?_⟩
          · rw [A64.construct_initial_value, hr]
            rfl
          · simp only [A64.type_size]
            exact lemBytes r.1 [] r.2.1 hb hle
        | true =>
          obtain ⟨hr1, hr2, hr3⟩ := hcz rfl (a64_countSome_replicate members.length)
          obtain ⟨hne0, hszm⟩ := hunion rfl
          obtain ⟨m0, rest', rfl⟩ := List.exists_cons_of_ne_nil hne0
          have hm0 : m0 ∈ m0 :: rest' := List.mem_cons_self m0 rest'
          obtain ⟨d0, hd0, hb0⟩ := ih m0 (hmemN m0 hm0) none (hwtm m0 hm0)
            (by simp [A64.wfInit]) p ((hdiv m0 hm0).trans halp)
          have hreq : r = ([], 0, 0) := by
            rw [Prod.ext_iff, Prod.ext_iff]
            exact ⟨hr1, hr2, hr3⟩
          rw [hreq] at hr
          have hb : A64.dirBytes p ([] ++ d0) = 0 + A64.type_size m0 := by
            simpa using hb0
          have hle : 0 + A64.type_size m0 ≤ sz := by
            simpa using hszm m0 hm0
          refine ⟨[] ++ d0 ++ (if sz ≠ 0 + A64.type_size m0 then
              A64.padDirs (sz - (0 + A64.type_size m0)) else []), ?_, ?_⟩
          · rw [A64.construct_initial_value, hr]
            show ((A64.construct_initial_value m0 none).map
                (fun d => (d, (0 : Nat) + A64.type_size m0))).bind
                (fun r2 => some (([] : List A64.Dir) ++ r2.1 ++
                  if sz ≠ r2.2 then A64.padDirs (sz - r2.2) else [])) = _
            rw [hd0]
            rfl
          · simp only [A64.type_size]
            exact lemBytes [] d0 (0 + A64.type_size m0) hb hle
      | some i =>
        cases i with
        | single v => simp [A64.wfInit] at hwi
        | multi elems =>
          simp only [A64.wfInit] at hwi
          obtain ⟨hlen, hpairs, hcsu⟩ := hwi
          obtain ⟨r, hr, hbr, hor, hnu, hcz, hco⟩ :=
            lemMembers members elems 0 0 (fun m hm => hm) hlen hpairs hcsu
          cases isUnion with
          | false =>
            obtain ⟨hext, -⟩ := hnu rfl
            have hle : r.2.1 ≤ sz := by rw [hext]; exact hnonun rfl
            have hb : A64.dirBytes p (r.1 ++ []) = r.2.1 := by
              rw [List.append_nil]
              simpa using hbr
            refine ⟨r.1 ++ [] ++ (if sz ≠ r.2.1 then A64.padDirs (sz - r.2.1) else []), ?_, ?_⟩
            · rw [A64.construct_initial_value, if_pos hlen, hr]
              rfl
            · simp only [A64.type_size]
              exact lemBytes r.1 [] r.2.1 hb hle
          | true =>
            have hcs01 : A64.countSome elems = 0 ∨ A64.countSome elems = 1 := by
              have := hcsu rfl
              omega
            obtain ⟨hne0, hszm⟩ := hunion rfl
            rcases hcs01 with hcs0 | hcs1
            · obtain ⟨hr1, hr2, hr3⟩ := hcz rfl hcs0
              obtain ⟨m0, rest', rfl⟩ := List.exists_cons_of_ne_nil hne0
              have hm0 : m0 ∈ m0 :: rest' := List.mem_cons_self m0 rest'
              obtain ⟨d0, hd0, hb0⟩ := ih m0 (hmemN m0 hm0) none (hwtm m0 hm0)
                (by simp [A64.wfInit]) p ((hdiv m0 hm0).trans halp)
              have hreq : r = ([], 0, 0) := by
                rw [Prod.ext_iff, Prod.ext_iff]
                exact ⟨hr1, hr2, hr3⟩
              rw [hreq] at hr
              have hb : A64.dirBytes p ([] ++ d0) = 0 + A64.type_size m0 := by
                simpa using hb0
              have hle : 0 + A64.type_size m0 ≤ sz := by
                simpa using hszm m0 hm0
              refine ⟨[] ++ d0 ++ (if sz ≠ 0 + A64.type_size m0 then
                  A64.padDirs (sz - (0 + A64.type_size m0)) else []), ?_, ?_⟩
              · rw [A64.construct_initial_value, if_pos hlen, hr]
                show ((A64.construct_initial_value m0 none).map
                    (fun d => (d, (0 : Nat) + A64.type_size m0))).bind
                    (fun r2 => some (([] : List A64.Dir) ++ r2.1 ++
                      if sz ≠ r2.2 then A64.padDirs (sz - r2.2) else [])) = _
                rw [hd0]
                rfl
              · simp only [A64.type_size]
                exact lemBytes [] d0 (0 + A64.type_size m0) hb hle
            · obtain ⟨hcnt, m1, hm1, hextu⟩ := hco rfl hcs1
              have hle : r.2.1 ≤ sz := by
                rw [hextu, a64_alignN_zero]
                simpa using hszm m1 hm1
              have hb : A64.dirBytes p (r.1 ++ []) = r.2.1 := by
                rw [List.append_nil]
                simpa using hbr
              obtain ⟨rd, ro, rc⟩ := r
              dsimp only at hcnt hb hle hr ⊢
              subst hcnt
              refine ⟨rd ++ [] ++ (if sz ≠ ro then A64.padDirs (sz - ro) else []),
                ?_, ?_⟩
              · rw [A64.construct_initial_value, if_pos hlen, hr]
                rfl
              · simp only [A64.type_size]
                exact lemBytes rd [] ro hb hle

/-- For every well-formed type and initializer, the AArch64 data emitter
succeeds, and its directives cover exactly type_size bytes from any position
aligned for the type. -/
theorem a64_construct_initial_value_size (ty : A64.CType) (init : Option A64.AInit)
    (hwt : A64.wfType ty) (hwi : A64.wfInit ty init) (p : Nat)
    (hp : A64.align_size ty ∣ p) :
    ∃ ds, A64.construct_initial_value ty init = some ds ∧
      A64.dirBytes p ds = A64.type_size ty :=
  a64_construct_size_aux (sizeOf ty) ty le_rfl init hwt hwi p hp

namespace Wasm

/-- ULEB128 encoding. Modelled from the spec: emit_uleb128 lives in
wasm_util.c (not under src/); the spec prescribes ULEB128 byte lengths, i.e.
little-endian 7-bit groups with a continuation bit. -/
def uleb128 (n : Nat) : List Nat :=
  if h : n < 128 then [n]
  else (n % 128 + 128) :: uleb128 (n / 128)
  termination_by n
  decreasing_by
    exact Nat.div_lt_self (by omega) (by omega)

/-- DataStorage operations (util.c, not under src/). Modelled from the spec:
a growable byte buffer supporting push, append, concat and insertion at a
byte position. -/
def data_push (ds : List Nat) (b : Nat) : List Nat := ds ++ [b]

def data_append (ds bs : List Nat) : List Nat := ds ++ bs

def data_concat (ds other : List Nat) : List Nat := ds ++ other

def data_insert (ds : List Nat) (pos : Nat) (bs : List Nat) : List Nat :=
  ds.take pos ++ bs ++ ds.drop pos

def emit_uleb128 (ds : List Nat) (pos : Nat) (v : Nat) : List Nat :=
  data_insert ds pos (uleb128 v)

/-- Section ids, as given in the emit_wasm comments (wcc.c lines 422-500). -/
def SEC_TYPE : Nat := 1

def SEC_IMPORT : Nat := 2

def SEC_FUNC : Nat := 3

def SEC_GLOBAL : Nat := 6

def SEC_EXPORT : Nat := 7

def SEC_CODE : Nat := 10

def SEC_DATA : Nat := 11

/-- Import kind for a memory (wasm header not under src/; modelled from the
spec's binary-format description). -/
def IMPORT_MEMORY : Nat := 2

def OP_I32_CONST : Nat := 0x41

def OP_END : Nat := 0x0b

/-- The module name "env" as bytes. -/
def envName : List Nat := [101, 110, 118]

/-- The import name "memory" as bytes. -/
def memoryName : List Nat := [109, 101, 109, 111, 114, 121]

/-- Magic \0asm and version 1 (emit_wasm_header, not under src/; modelled
from the spec). -/
def wasm_header : List Nat := [0x00, 0x61, 0x73, 0x6D, 0x01, 0x00, 0x00, 0x00]

/-- The table-iteration loops of emit_wasm summarised by their outputs: the
raw entry bytes and entry counts of each section body, the per-function
(type index, code bytes) pairs for defined functions with a nonzero flag,
and the data-segment bytes produced by construct_data_segment. -/
structure ModuleInput where
  types_body : List Nat
  num_types : Nat
  imports_body : List Nat
  imports_count0 : Nat
  funcs : List (Nat × List Nat)
  globals_body : List Nat
  globals_count : Nat
  exports_body : List Nat
  num_exports : Nat
  data_body : List Nat

/-- The repeated finishing pattern of emit_wasm: insert the entry count at
offset 0, then the section byte length at offset 0. -/
def withCountAndSize (body : List Nat) (count : Nat) : List Nat :=
  let s := emit_uleb128 body 0 count
  emit_uleb128 s 0 s.length

/-- The unconditional env.memory import block (wcc.c lines 296-311). -/
def addMemoryImport (s : List Nat) : List Nat :=
  let s := emit_uleb128 s s.length envName.length
  let s := data_append s envName
  let s := emit_uleb128 s s.length memoryName.length
  let s := data_append s memoryName
  let s := emit_uleb128 s s.length IMPORT_MEMORY
  let s := emit_uleb128 s s.length 0
  emit_uleb128 s s.length 1

/-- The Functions-section loop (wcc.c lines 318-335): one ULEB128 signature
index per defined function. -/
def functionsBody (funcs : List (Nat × List Nat)) : List Nat :=
  funcs.foldl (fun ds f => emit_uleb128 ds ds.length f.1) []

/-- emit_wasm (wcc.c lines 206-506): build each section, then write the
header, the combined Type/Import/Function/Global/Export sections, the Code
section followed by the function bodies, and the Data section. -/
def emit_wasm (m : ModuleInput) : List Nat :=
  let types_section := withCountAndSize m.types_body m.num_types
  let imports_count := m.imports_count0 + 1
  let imports_section := addMemoryImport m.imports_body
  let imports_section :=
    if 0 < imports_count then withCountAndSize imports_section imports_count
    else imports_section
  let function_count := m.funcs.length
  let functions_section := withCountAndSize (functionsBody m.funcs) function_count
  let globals_section :=
    if 0 < m.globals_count then withCountAndSize m.globals_body m.globals_count
    else m.globals_body
  let exports_section := withCountAndSize m.exports_body m.num_exports
  let sections := data_concat (data_push [] SEC_TYPE) types_section
  let sections :=
    if 0 < imports_count then data_append (data_push sections SEC_IMPORT) imports_section
    else sections
  let sections := data_append (data_push sections SEC_FUNC) functions_section
  let sections :=
    if 0 < m.globals_count then data_append (data_push sections SEC_GLOBAL) globals_section
    else sections
  let sections := data_append (data_push sections SEC_EXPORT) exports_section
  let codesec := data_push [] SEC_CODE
  let size_pos := codesec.length
  let total_code_size := (m.funcs.map (fun f => f.2.length)).sum
  let codesec := emit_uleb128 codesec codesec.length function_count
  let codesec := emit_uleb128 codesec size_pos (codesec.length - size_pos + total_code_size)
  let code_bodies := (m.funcs.map (fun f => f.2)).flatten
  let data_out :=
    if 0 < m.data_body.length then
      let seg_info : List Nat := [1, 0, OP_I32_CONST, 0, OP_END]
      let datasize := m.data_body.length
      let d1 := data_insert m.data_body 0 seg_info
      let d2 := emit_uleb128 d1 seg_info.length datasize
      let section_size := d2.length
      let d3 := data_insert d2 0 [SEC_DATA]
      emit_uleb128 d3 1 section_size
    else []
  wasm_header ++ sections ++ codesec ++ code_bodies ++ data_out

/-- A framed section: the one-byte id, the ULEB128 body length, the body. -/
def secFramed (i : Nat) (body : List Nat) : List Nat :=
  i :: (uleb128 body.length ++ body)

/-- The bytes of the env.memory import entry. -/
def memImportEntry : List Nat :=
  uleb128 envName.length ++ envName ++ uleb128 memoryName.length ++ memoryName ++
  uleb128 IMPORT_MEMORY ++ uleb128 0 ++ uleb128 1

end Wasm

/-- Inserting at offset 0 prepends. -/
theorem wasm_insert_zero (ds bs : List Nat) : Wasm.data_insert ds 0 bs = bs ++ ds := by
  simp [Wasm.data_insert]

/-- Inserting at the end appends. -/
theorem wasm_insert_end (ds bs : List Nat) : Wasm.data_insert ds ds.length bs = ds ++ bs := by
  simp [Wasm.data_insert]

/-- Inserting at an interior offset splits there. -/
theorem wasm_insert_mid (l1 l2 bs : List Nat) :
    Wasm.data_insert (l1 ++ l2) l1.length bs = l1 ++ bs ++ l2 := by
  simp [Wasm.data_insert, List.take_left, List.drop_left, List.append_assoc]

/-- Inserting at offset 1 keeps the head byte. -/
theorem wasm_insert_one (x : Nat) (l bs : List Nat) :
    Wasm.data_insert (x :: l) 1 bs = x :: (bs ++ l) := rfl

/-- The count-then-size finish produces a ULEB128 length prefix of the body. -/
theorem wasm_withCountAndSize_eq (body : List Nat) (count : Nat) :
    Wasm.withCountAndSize body count =
      Wasm.uleb128 (Wasm.uleb128 count ++ body).length ++ (Wasm.uleb128 count ++ body) := by
  simp [Wasm.withCountAndSize, Wasm.emit_uleb128, Wasm.data_insert]

/-- The memory-import block appends the env.memory entry bytes. -/
theorem wasm_addMemoryImport_eq (s : List Nat) :
    Wasm.addMemoryImport s = s ++ Wasm.memImportEntry := by
  simp only [Wasm.addMemoryImport, Wasm.emit_uleb128, Wasm.data_append, wasm_insert_end]
  simp [Wasm.memImportEntry, List.append_assoc]

/-- The Functions-section loop concatenates the ULEB128 signature indices. -/
theorem wasm_functionsBody_eq (funcs : List (Nat × List Nat)) :
    Wasm.functionsBody funcs = (funcs.map (fun f => Wasm.uleb128 f.1)).flatten := by
  have haux : ∀ (fs : List (Nat × List Nat)) (acc : List Nat),
      fs.foldl (fun ds f => Wasm.emit_uleb128 ds ds.length f.1) acc =
        acc ++ (fs.map (fun f => Wasm.uleb128 f.1)).flatten := by
    intro fs
    induction fs with
    | nil => intro acc; simp
    | cons f rest ihf =>
      intro acc
      rw [List.foldl_cons, ihf]
      simp [Wasm.emit_uleb128, Wasm.data_insert, List.append_assoc]
  simpa [Wasm.functionsBody] using haux funcs []

/-- The Code section bytes are the id, the ULEB128 length of the body
(function count plus the code bodies), then the function count. -/
theorem wasm_codesec_eq (funcs : List (Nat × List Nat)) :
    Wasm.emit_uleb128
        (Wasm.emit_uleb128 (Wasm.data_push [] Wasm.SEC_CODE)
          (Wasm.data_push [] Wasm.SEC_CODE).length funcs.length)
        (Wasm.data_push [] Wasm.SEC_CODE).length
        ((Wasm.emit_uleb128 (Wasm.data_push [] Wasm.SEC_CODE)
            (Wasm.data_push [] Wasm.SEC_CODE).length funcs.length).length -
          (Wasm.data_push [] Wasm.SEC_CODE).length +
          (funcs.map (fun f => f.2.length)).sum) =
      Wasm.SEC_CODE ::
        (Wasm.uleb128
            (Wasm.uleb128 funcs.length ++ (funcs.map (fun f => f.2)).flatten).length ++
          Wasm.uleb128 funcs.length) := by
  simp only [Wasm.emit_uleb128, wasm_insert_end]
  rw [wasm_insert_mid]
  have harg : (Wasm.data_push [] Wasm.SEC_CODE ++ Wasm.uleb128 funcs.length).length -
      (Wasm.data_push [] Wasm.SEC_CODE).length + (funcs.map (fun f => f.2.length)).sum =
      (Wasm.uleb128 funcs.length ++ (funcs.map (fun f => f.2)).flatten).length := by
    simp only [Wasm.data_push, List.nil_append, List.length_append, List.length_singleton,
      List.length_flatten, List.map_map, Function.comp_def]
    omega
  rw [harg]
  simp [Wasm.data_push]

/-- The Data section bytes are the id, the ULEB128 section length, the
segment header, the ULEB128 segment size, then the data bytes. -/
theorem wasm_data_out_eq (db : List Nat) :
    Wasm.emit_uleb128
        (Wasm.data_insert
          (Wasm.emit_uleb128 (Wasm.data_insert db 0 [1, 0, Wasm.OP_I32_CONST, 0, Wasm.OP_END])
            ([1, 0, Wasm.OP_I32_CONST, 0, Wasm.OP_END] : List Nat).length db.length)
          0 [Wasm.SEC_DATA]) 1
        (Wasm.emit_uleb128 (Wasm.data_insert db 0 [1, 0, Wasm.OP_I32_CONST, 0, Wasm.OP_END])
          ([1, 0, Wasm.OP_I32_CONST, 0, Wasm.OP_END] : List Nat).length db.length).length =
      Wasm.secFramed Wasm.SEC_DATA
        ([1, 0, Wasm.OP_I32_CONST, 0, Wasm.OP_END] ++ Wasm.uleb128 db.length ++ db) := by
  simp only [Wasm.emit_uleb128, wasm_insert_zero, wasm_insert_mid, List.singleton_append,
    wasm_insert_one]
  simp [Wasm.secFramed, List.append_assoc]

/-- C7: emit_wasm writes the magic bytes \0asm and version 1, then the
sections in the fixed order Type, Import, Function, Global, Export, Code,
Data, where Global and Data are omitted when they have no entries while the
Import section always carries at least the env.memory import, and each
section is its one-byte id followed by its body length encoded as ULEB128
and the body. -/
theorem wc_emit_wasm_section_layout (m : Wasm.ModuleInput) :
    Wasm.emit_wasm m =
      Wasm.wasm_header ++
      Wasm.secFramed Wasm.SEC_TYPE (Wasm.uleb128 m.num_types ++ m.types_body) ++
      Wasm.secFramed Wasm.SEC_IMPORT
        (Wasm.uleb128 (m.imports_count0 + 1) ++ (m.imports_body ++ Wasm.memImportEntry)) ++
      Wasm.secFramed Wasm.SEC_FUNC
        (Wasm.uleb128 m.funcs.length ++ (m.funcs.map (fun f => Wasm.uleb128 f.1)).flatten) ++
      (if 0 < m.globals_count then
        Wasm.secFramed Wasm.SEC_GLOBAL (Wasm.uleb128 m.globals_count ++ m.globals_body)
      else []) ++
      Wasm.secFramed Wasm.SEC_EXPORT (Wasm.uleb128 m.num_exports ++ m.exports_body) ++
      Wasm.secFramed Wasm.SEC_CODE
        (Wasm.uleb128 m.funcs.length ++ (m.funcs.map (fun f => f.2)).flatten) ++
      (if 0 < m.data_body.length then
        Wasm.secFramed Wasm.SEC_DATA
          ([1, 0, Wasm.OP_I32_CONST, 0, Wasm.OP_END] ++
            Wasm.uleb128 m.data_body.length ++ m.data_body)
      else []) := by
  have hi : 0 < m.imports_count0 + 1 := Nat.succ_pos _
  simp only [Wasm.emit_wasm]
  simp only [if_pos hi]
  rw [wasm_data_out_eq, wasm_codesec_eq]
  simp only [wasm_addMemoryImport_eq, wasm_functionsBody_eq, wasm_withCountAndSize_eq]
  by_cases hg : 0 < m.globals_count
  · simp only [if_pos hg]
    simp [Wasm.data_push, Wasm.data_append, Wasm.data_concat, Wasm.secFramed,
      List.append_assoc]
  · simp only [if_neg hg]
    simp [Wasm.data_push, Wasm.data_append, Wasm.data_concat, Wasm.secFramed,
      List.append_assoc]
